import Mathlib

/-!
Verification of the QGeoMarine seismic-processing and navigation core.

The definitions below are a shallow embedding of the Python sources
(`qgeomarine/core/signals/{filters,mute,deconvolution}.py`, `Gains.py`,
`qgeomarine/core/processing/trace_qc.py`,
`qgeomarine/core/navigation/navigation.py`).  Seismic traces are lists of
real numbers, trace matrices are lists of rows; scalar parameters that the
Python code receives as plain numbers are rationals so that the control
flow (validation checks, slice bounds) stays decidable, while the signal
arithmetic lives in `ℝ` (the IEEE floats of the original are modelled as
reals).  Fallible NumPy operations are modelled with `Option`/`Except`.
-/

set_option maxHeartbeats 1000000
set_option linter.unusedVariables false

namespace QGeoMarine

/-- Python `int(q)` on a rational: truncation toward zero, which is
`Int.tdiv` of the numerator by the denominator. -/
def pyInt (q : ℚ) : ℤ := Int.tdiv q.num q.den

/-- Clamp an integer slice bound (Python slice semantics: a negative bound
counts from the end of a sequence of length `n`, and bounds are clamped
into `[0, n]`). -/
def pySliceIdx (m : ℤ) (n : ℕ) : ℕ :=
  if m < 0 then (m + n).toNat else min m.toNat n

/-- A list `getD` access beyond the length yields the default. -/
theorem getD_of_le {α : Type _} (l : List α) (i : ℕ) (d : α)
    (h : l.length ≤ i) : l.getD i d = d := by
  rw [List.getD_eq_getElem?_getD, List.getElem?_eq_none h]; rfl

/-- A list `getD` access inside the length is the corresponding element. -/
theorem getD_of_lt {α : Type _} (l : List α) (i : ℕ) (d : α)
    (h : i < l.length) : l.getD i d = l[i] := by
  rw [List.getD_eq_getElem?_getD, List.getElem?_eq_getElem h]; rfl

/-- `getD` into a replicated list never leaves the replicated value. -/
theorem getD_replicate {α : Type _} (n j : ℕ) (a : α) :
    (List.replicate n a).getD j a = a := by
  induction n generalizing j with
  | zero => simp [List.getD]
  | succ n ih =>
    cases j with
    | zero => simp [List.replicate_succ]
    | succ j =>
      simp only [List.replicate_succ, List.getD_cons_succ]
      exact ih j

/-- For nonnegative rationals Python truncation agrees with the floor. -/
theorem pyInt_nonneg_eq (q : ℚ) (hq : 0 ≤ q) : pyInt q = ⌊q⌋ := by
  rw [pyInt, Int.tdiv_eq_ediv (Rat.num_nonneg.mpr hq) (by positivity), Rat.floor_def]

noncomputable section

/-- NumPy-style slice assignment `row[:e] = 0`: the first `e` entries are
replaced by zeros, the rest of the row is kept. -/
def setHeadZeros (r : List ℝ) (e : ℕ) : List ℝ :=
  List.replicate (min e r.length) 0 ++ r.drop e

/-- NumPy-style slice assignment `row[e:] = 0`. -/
def setTailZeros (r : List ℝ) (e : ℕ) : List ℝ :=
  r.take e ++ List.replicate (r.length - e) 0

theorem setHeadZeros_length (r : List ℝ) (e : ℕ) :
    (setHeadZeros r e).length = r.length := by
  simp only [setHeadZeros, List.length_append, List.length_replicate, List.length_drop]
  omega

theorem setTailZeros_length (r : List ℝ) (e : ℕ) :
    (setTailZeros r e).length = r.length := by
  simp only [setTailZeros, List.length_append, List.length_replicate, List.length_take]
  omega

theorem setHeadZeros_getD (r : List ℝ) (e j : ℕ) :
    (setHeadZeros r e).getD j 0 =
      if j < min e r.length then 0 else r.getD j 0 := by
  induction r generalizing e j with
  | nil => simp [setHeadZeros, List.getD]
  | cons a t ih =>
    cases e with
    | zero => simp [setHeadZeros]
    | succ e =>
      have hstep : setHeadZeros (a :: t) (e + 1) = 0 :: setHeadZeros t e := by
        have hmin : min (e + 1) (t.length + 1) = min e t.length + 1 := by omega
        simp [setHeadZeros, List.length_cons, hmin, List.replicate_succ]
      rw [hstep]
      cases j with
      | zero =>
        simp only [List.getD_cons_zero, List.length_cons]
        rw [if_pos (by omega)]
      | succ j =>
        simp only [List.getD_cons_succ, List.length_cons]
        rw [ih e j]
        congr 1
        simp only [eq_iff_iff]
        omega

/-! ## Gains.py -/

namespace Gains

/-- `constant_gain(data, gain_factor)`: scalar multiplication of the whole
matrix (`const_gain_data = data * gain_factor`). -/
def constant_gain (data : List (List ℝ)) (gain_factor : ℚ) : List (List ℝ) :=
  data.map (fun row => row.map (fun x => x * (gain_factor : ℝ)))

/-- `tvg_gain(data, time_gradient)`: every trace is multiplied elementwise by
the time curve `np.arange(1, n_samples + 1) ** time_gradient`, where
`n_samples` is the column count of the 2D input. -/
def tvg_gain (data : List (List ℝ)) (time_gradient : ℚ) : List (List ℝ) :=
  data.map (fun row =>
    row.zipWith (fun x c => x * c)
      (List.ofFn (fun k : Fin (data.getD 0 []).length =>
        ((k + 1 : ℕ) : ℝ) ^ (time_gradient : ℝ))))

end Gains

/-! ## mute.py -/

namespace Mute

/-- `Mute.top_mute(data, mute_time, sample_interval)`: computes
`mute_sample = int(mute_time / sample_interval)` and zeroes
`muted_data[:, :mute_sample]` on a copy of the data. -/
def top_mute (data : List (List ℝ)) (mute_time sample_interval : ℚ) :
    List (List ℝ) :=
  data.map (fun row =>
    setHeadZeros row (pySliceIdx (pyInt (mute_time / sample_interval)) row.length))

/-- `Mute.bottom_mute(data, mute_time, sample_interval)`: zeroes
`muted_data[:, mute_sample:]` on a copy of the data. -/
def bottom_mute (data : List (List ℝ)) (mute_time sample_interval : ℚ) :
    List (List ℝ) :=
  data.map (fun row =>
    setTailZeros row (pySliceIdx (pyInt (mute_time / sample_interval)) row.length))

/-- `Mute.offset_mute(data, offsets, mute_offset)`: every trace whose offset
exceeds `mute_offset` is zeroed whole.  NumPy raises an `IndexError` when the
offsets list addresses a row beyond the trace count, modelled by `none`. -/
def offset_mute (data : List (List ℝ)) (offsets : List ℚ) (mute_offset : ℚ) :
    Option (List (List ℝ)) :=
  if ∀ i ∈ List.range offsets.length, mute_offset < offsets.getD i 0 → i < data.length
  then
    some (data.mapIdx (fun i row =>
      if i < offsets.length ∧ mute_offset < offsets.getD i 0 then
        List.replicate row.length 0
      else row))
  else none

/-- `Mute.time_variant_mute(data, initial_time, final_time, sample_interval)`:
inside the window `[mute_start_sample, mute_end_sample)` every sample of every
trace is scaled by the ramp `1 - (i - start)/(end - start)`.  The Python loop
indexes `trace[i]` for every `i` in that range, so it raises an `IndexError`
(modelled by `none`) when the window extends past the end of a trace. -/
def time_variant_mute (data : List (List ℝ))
    (initial_time final_time sample_interval : ℚ) : Option (List (List ℝ)) :=
  let ms := pyInt (initial_time / sample_interval)
  let me := pyInt (final_time / sample_interval)
  if ms < me → (0 ≤ ms ∧ ∀ row ∈ data, me ≤ (row.length : ℤ)) then
    some (data.map (fun row => row.mapIdx (fun i x =>
      if ms ≤ (i : ℤ) ∧ (i : ℤ) < me then
        x * (1 - ((((i : ℤ) - ms : ℤ) : ℝ) / (((me - ms : ℤ)) : ℝ)))
      else x)))
  else none

end Mute

/-- The claim C4 statement for one row. -/
theorem top_mute_row (r : List ℝ) (ms : ℕ) (j : ℕ) :
    (setHeadZeros r (pySliceIdx ms r.length)).getD j 0 =
      if j < ms then 0 else r.getD j 0 := by
  rw [setHeadZeros_getD]
  have he : pySliceIdx (ms : ℤ) r.length = min ms r.length := by
    rw [pySliceIdx, if_neg (by omega)]
    omega
  rw [he]
  by_cases h1 : j < min (min ms r.length) r.length
  · rw [if_pos h1, if_pos (by omega)]
  · rw [if_neg h1]
    by_cases h2 : j < ms
    · have hlen : r.length ≤ j := by omega
      rw [if_pos h2, getD_of_le _ _ _ hlen]
    · rw [if_neg h2]

/-- C4: `top_mute` zeroes exactly the samples with index below
`int(mute_time / sample_interval)` — uniformly for every trace — and
preserves the shape; with `mute_time = 0.1` and `sample_interval = 0.001`
the threshold is exactly sample index 100. -/
theorem C4_top_mute_boundary :
    (∀ (data : List (List ℝ)) (mt si : ℚ), 0 ≤ mt → 0 < si →
      (Mute.top_mute data mt si).length = data.length ∧
      ∀ i j, ((Mute.top_mute data mt si).getD i []).getD j 0 =
        if (j : ℤ) < pyInt (mt / si) then 0 else ((data.getD i []).getD j 0)) ∧
    (∀ (data : List (List ℝ)) (i j : ℕ),
      ((Mute.top_mute data (1/10) (1/1000)).getD i []).getD j 0 =
        if j < 100 then 0 else ((data.getD i []).getD j 0)) := by
  have key : ∀ (data : List (List ℝ)) (mt si : ℚ), 0 ≤ pyInt (mt / si) →
      ∀ i j, ((Mute.top_mute data mt si).getD i []).getD j 0 =
        if (j : ℤ) < pyInt (mt / si) then 0 else ((data.getD i []).getD j 0) := by
    intro data mt si hms i j
    obtain ⟨msn, hmsn⟩ : ∃ n : ℕ, pyInt (mt / si) = (n : ℤ) :=
      ⟨_, (Int.toNat_of_nonneg hms).symm⟩
    by_cases hi : i < data.length
    · rw [Mute.top_mute, getD_of_lt _ i _ (by simpa using hi), List.getElem_map,
        getD_of_lt data i [] hi, hmsn, top_mute_row]
      congr 1
      simp only [eq_iff_iff]
      omega
    · push_neg at hi
      have h1 : (Mute.top_mute data mt si).length ≤ i := by
        simpa [Mute.top_mute] using hi
      rw [getD_of_le _ _ _ h1, getD_of_le data i [] hi]
      simp [List.getD]
  constructor
  · intro data mt si hmt hsi
    have hq : 0 ≤ mt / si := div_nonneg hmt (le_of_lt hsi)
    have hpos : 0 ≤ pyInt (mt / si) := by
      rw [pyInt_nonneg_eq _ hq]; exact Int.floor_nonneg.mpr hq
    exact ⟨by simp [Mute.top_mute], key data mt si hpos⟩
  · intro data i j
    have h100 : pyInt ((1 : ℚ)/10 / (1/1000)) = 100 := by
      have harg : (1 : ℚ)/10 / (1/1000) = 100 := by norm_num
      rw [harg]
      decide
    rw [key data (1/10) (1/1000) (by rw [h100]; omega) i j, h100]
    congr 1
    simp only [eq_iff_iff]
    omega

/-- C4 witness: concrete evaluation at a 1×2 matrix with the spec's
parameters. -/
theorem C4_top_mute_boundary_witness :
    ((Mute.top_mute [[(5:ℝ), 6]] (1/10) (1/1000)).getD 0 []).getD 0 0 = 0 ∧
    ((Mute.top_mute [[(5:ℝ), 6]] (1/10) (1/1000)).getD 0 []).getD 1 0 = 0 := by
  constructor
  · rw [C4_top_mute_boundary.2 [[(5:ℝ), 6]] 0 0]
    norm_num
  · rw [C4_top_mute_boundary.2 [[(5:ℝ), 6]] 0 1]
    norm_num

/-! ## navigation.py -/

/-- NumPy `arctan2(y, x)` with the usual quadrant conventions. -/
def np_arctan2 (y x : ℝ) : ℝ :=
  if 0 < x then Real.arctan (y / x)
  else if x < 0 ∧ 0 ≤ y then Real.arctan (y / x) + Real.pi
  else if x < 0 ∧ y < 0 then Real.arctan (y / x) - Real.pi
  else if x = 0 ∧ 0 < y then Real.pi / 2
  else if x = 0 ∧ y < 0 then -(Real.pi / 2)
  else 0

namespace NavigationFromShip

/-- `calculate_layback(cable_length, depth)`: raises when
`cable_length < depth`, otherwise returns `sqrt(cable_length² - depth²)`. -/
def calculate_layback (cable_length depth : ℚ) : Except String ℝ :=
  if cable_length < depth then
    .error "Cable length must be greater than depth to apply the Pythagorean theorem."
  else
    .ok (Real.sqrt ((cable_length : ℝ) ^ 2 - (depth : ℝ) ^ 2))

/-- `calculate_total_offset(row)`: sheave offset plus layback, reading the
three towing quantities of one navigation record. -/
def calculate_total_offset (cable_length depth sheave_offset : ℚ) :
    Except String ℝ :=
  (calculate_layback cable_length depth).map
    (fun layback => (sheave_offset : ℝ) + layback)

/-- `calculate_heading(gps_coords1, gps_coords2) = arctan2(Y2-Y1, X2-X1)`. -/
def calculate_heading (p1 p2 : ℚ × ℚ) : ℝ :=
  np_arctan2 ((p2.2 : ℝ) - (p1.2 : ℝ)) ((p2.1 : ℝ) - (p1.1 : ℝ))

/-- `calculate_sbp_coords(ship_gps_coords, total_offset, ship_heading)`. -/
def calculate_sbp_coords (ship : ℚ × ℚ) (total_offset heading : ℝ) : ℝ × ℝ :=
  ((ship.1 : ℝ) + total_offset * Real.cos heading,
   (ship.2 : ℝ) + total_offset * Real.sin heading)

/-- One tabulated navigation record (a row of the pandas DataFrame): ship
GPS position, towing quantities, and the value of the optional `Heading`
column. -/
structure NavRow where
  X_ship : ℚ
  Y_ship : ℚ
  cable_length : ℚ
  depth : ℚ
  sheave_offset : ℚ
  Heading : ℚ

/-- A navigation DataFrame: the rows plus whether a `Heading` column is
present. -/
structure NavTrack where
  rows : List NavRow
  hasHeading : Bool

def rowAt (t : NavTrack) (i : ℕ) : NavRow := t.rows.getD i ⟨0, 0, 0, 0, 0, 0⟩

/-- The body of the loop `for i in range(len(ship_gps_df) - 1)` in
`ship_to_sbp_nav`, collecting the SBP coordinate of each visited record. -/
def sbpLoop (t : NavTrack) : List ℕ → Except String (List (ℝ × ℝ))
  | [] => .ok []
  | i :: rest => do
      let r := rowAt t i
      let off ← calculate_total_offset r.cable_length r.depth r.sheave_offset
      let heading := if t.hasHeading then (r.Heading : ℝ)
        else calculate_heading (r.X_ship, r.Y_ship)
          ((rowAt t (i + 1)).X_ship, (rowAt t (i + 1)).Y_ship)
      let cs ← sbpLoop t rest
      .ok (calculate_sbp_coords (r.X_ship, r.Y_ship) off heading :: cs)

/-- `assign_sbp_coords_to_segy`: raises when the number of coordinates does
not match the SEG-Y trace count (the header writes themselves are I/O). -/
def assign_sbp_coords_to_segy (tracecount : ℕ) (sbp_coords : List (ℝ × ℝ)) :
    Except String Unit :=
  if sbp_coords.length ≠ tracecount then
    .error "Mismatch between trace count and number of SBP coordinates."
  else .ok ()

/-- `ship_to_sbp_nav(navigation_df, segyfile)`: loops over
`range(len(df) - 1)` collecting SBP coordinates, then executes
`df[X_sbp], df[Y_sbp] = zip(*sbp_coords)` — which raises `ValueError` when
`sbp_coords` is empty (tuple unpacking) or when its length differs from the
DataFrame row count (pandas column-length check) — and finally assigns the
coordinates to the SEG-Y headers. -/
def ship_to_sbp_nav (t : NavTrack) (segy_tracecount : ℕ) :
    Except String (List (ℝ × ℝ)) := do
  let sbp_coords ← sbpLoop t (List.range (t.rows.length - 1))
  if sbp_coords.length = 0 then
    .error "not enough values to unpack"
  else if sbp_coords.length ≠ t.rows.length then
    .error "Length of values does not match length of index"
  else do
    let _ ← assign_sbp_coords_to_segy segy_tracecount sbp_coords
    .ok sbp_coords

end NavigationFromShip

namespace NavigationFromTowFish

/-- `load_Nav_data_from_segyfile`: the trace headers (SourceX, SourceY,
GroupX, GroupY are integer header words) are read into four parallel lists;
the zero entries of each list are filtered out independently, and the
source coordinate list returned is the `zip` of the two filtered source
lists.  (The receiver lists are built the same way but are not returned.) -/
def load_Nav_data_from_segyfile (headers : List (ℤ × ℤ × ℤ × ℤ)) :
    List (ℤ × ℤ) :=
  ((headers.map (fun h => h.1)).filter (fun x => x ≠ 0)).zip
    ((headers.map (fun h => h.2.1)).filter (fun y => y ≠ 0))

end NavigationFromTowFish

/-- C3: layback is `sqrt(L² - D²)` whenever `L ≥ D`, the 3-4-5 example gives
exactly 80, and `L < D` fails with the geometry error instead of returning a
value. -/
theorem C3_layback_correctness :
    (∀ L D : ℚ, (D ≤ L →
        NavigationFromShip.calculate_layback L D =
          .ok (Real.sqrt ((L : ℝ) ^ 2 - (D : ℝ) ^ 2))) ∧
      (L < D → ∃ msg, NavigationFromShip.calculate_layback L D = .error msg)) ∧
    NavigationFromShip.calculate_layback 100 60 = .ok 80 ∧
    (∃ msg, NavigationFromShip.calculate_layback 50 60 = .error msg) := by
  have hgen : ∀ L D : ℚ, (D ≤ L →
      NavigationFromShip.calculate_layback L D =
        .ok (Real.sqrt ((L : ℝ) ^ 2 - (D : ℝ) ^ 2))) ∧
      (L < D → ∃ msg, NavigationFromShip.calculate_layback L D = .error msg) := by
    intro L D
    constructor
    · intro hLD
      rw [NavigationFromShip.calculate_layback, if_neg (by exact not_lt.mpr hLD)]
    · intro hLD
      exact ⟨_, by rw [NavigationFromShip.calculate_layback, if_pos hLD]⟩
  refine ⟨hgen, ?_, (hgen 50 60).2 (by norm_num)⟩
  rw [(hgen 100 60).1 (by norm_num)]
  have : ((100 : ℚ) : ℝ) ^ 2 - ((60 : ℚ) : ℝ) ^ 2 = (80 : ℝ) ^ 2 := by norm_num
  rw [this, Real.sqrt_sq (by norm_num)]

/-- C3 witness: the two concrete spec examples, obtained by applying the
general layback theorem. -/
theorem C3_layback_correctness_witness :
    NavigationFromShip.calculate_layback 100 60 =
      .ok (Real.sqrt (((100 : ℚ) : ℝ) ^ 2 - ((60 : ℚ) : ℝ) ^ 2)) ∧
    (∃ msg, NavigationFromShip.calculate_layback 50 60 = .error msg) :=
  ⟨(C3_layback_correctness.1 100 60).1 (by norm_num),
   (C3_layback_correctness.1 50 60).2 (by norm_num)⟩

/-- A successful pass of the `ship_to_sbp_nav` loop yields exactly one
coordinate pair per visited index. -/
theorem sbpLoop_length (t : NavigationFromShip.NavTrack) :
    ∀ (idxs : List ℕ) (cs : List (ℝ × ℝ)),
      NavigationFromShip.sbpLoop t idxs = .ok cs → cs.length = idxs.length := by
  intro idxs
  induction idxs with
  | nil =>
    intro cs h
    simp only [NavigationFromShip.sbpLoop] at h
    cases h
    rfl
  | cons i rest ih =>
    intro cs h
    simp only [NavigationFromShip.sbpLoop, bind, Except.bind] at h
    cases hoff : NavigationFromShip.calculate_total_offset
        (NavigationFromShip.rowAt t i).cable_length
        (NavigationFromShip.rowAt t i).depth
        (NavigationFromShip.rowAt t i).sheave_offset with
    | error e => rw [hoff] at h; cases h
    | ok off =>
      rw [hoff] at h
      cases hrest : NavigationFromShip.sbpLoop t rest with
      | error e => rw [hrest] at h; cases h
      | ok cs0 =>
        rw [hrest] at h
        cases h
        simpa using ih cs0 hrest

/-- C6 (code bug): `ship_to_sbp_nav` can never return a coordinate sequence
at all — the loop builds one pair per record except the last (n-1 pairs),
after which the pandas assignment of the two new columns always fails —
and in particular it fails on a concrete 2-record track. -/
theorem C6_ship_to_sbp_never_returns :
    (∀ (t : NavigationFromShip.NavTrack) (tc : ℕ), ∃ msg,
      NavigationFromShip.ship_to_sbp_nav t tc = .error msg) ∧
    NavigationFromShip.ship_to_sbp_nav
      ⟨[⟨0, 0, 100, 60, 5, 0⟩, ⟨3, 4, 100, 60, 5, 0⟩], true⟩ 1 =
      .error "Length of values does not match length of index" := by
  constructor
  · intro t tc
    rw [NavigationFromShip.ship_to_sbp_nav]
    cases hloop : NavigationFromShip.sbpLoop t (List.range (t.rows.length - 1)) with
    | error e => exact ⟨e, by simp [bind, Except.bind, hloop]⟩
    | ok cs =>
      have hlen : cs.length = t.rows.length - 1 := by
        simpa using sbpLoop_length t _ cs hloop
      by_cases h0 : cs.length = 0
      · exact ⟨"not enough values to unpack", by simp [bind, Except.bind, hloop, h0]⟩
      · have hne : cs.length ≠ t.rows.length := by omega
        exact ⟨"Length of values does not match length of index",
          by simp [bind, Except.bind, hloop, h0, hne]⟩
  · norm_num [NavigationFromShip.ship_to_sbp_nav, NavigationFromShip.sbpLoop,
      NavigationFromShip.rowAt, NavigationFromShip.calculate_total_offset,
      NavigationFromShip.calculate_layback,
      NavigationFromShip.assign_sbp_coords_to_segy, bind, Except.bind,
      Except.map, List.length_cons, List.length_nil, List.range_succ,
      List.range_zero, List.nil_append, List.getD]

/-- C7 counterexample: with headers whose zero (missing) coordinates do not
co-occur, the returned pair `(3, 5)` mixes the x of the second header with
the y of the first — it is not one of the per-header source pairs. -/
theorem C7_towfish_counterexample :
    NavigationFromTowFish.load_Nav_data_from_segyfile
      [(0, 5, 0, 0), (3, 7, 0, 0)] = [(3, 5)] ∧
    ((3 : ℤ), (5 : ℤ)) ∉
      ([(0, 5, 0, 0), ((3:ℤ), (7:ℤ), (0:ℤ), (0:ℤ))].map (fun h => (h.1, h.2.1))) := by
  constructor
  · rfl
  · decide

/-- C7 (amended): the extraction returns the zip of the two independently
zero-filtered coordinate lists; whenever the zero entries of a header
co-occur (x is missing exactly when y is), this equals the per-header source
pairs with the missing ones dropped, kept in trace order. -/
theorem C7_towfish_pairing (headers : List (ℤ × ℤ × ℤ × ℤ))
    (h : ∀ hd ∈ headers, (hd.1 = 0 ↔ hd.2.1 = 0)) :
    NavigationFromTowFish.load_Nav_data_from_segyfile headers =
      (headers.filter (fun hd => hd.1 ≠ 0)).map (fun hd => (hd.1, hd.2.1)) := by
  induction headers with
  | nil => rfl
  | cons hd t ih =>
    have hh := h hd (by simp)
    have ht : ∀ hd ∈ t, (hd.1 = 0 ↔ hd.2.1 = 0) := fun x hx => h x (by simp [hx])
    by_cases hx : hd.1 = 0
    · have hy : hd.2.1 = 0 := hh.mp hx
      simp only [NavigationFromTowFish.load_Nav_data_from_segyfile,
        List.map_cons, List.filter_cons] at *
      rw [if_neg (by simp [hx]), if_neg (by simp [hy]), if_neg (by simp [hx])]
      exact ih ht
    · have hy : hd.2.1 ≠ 0 := fun h0 => hx (hh.mpr h0)
      simp only [NavigationFromTowFish.load_Nav_data_from_segyfile,
        List.map_cons, List.filter_cons] at *
      rw [if_pos (by simp [hx]), if_pos (by simp [hy]), if_pos (by simp [hx])]
      simp only [List.zip_cons_cons, List.map_cons]
      rw [ih ht]

/-- C7 witness: on headers whose missing entries co-occur, the theorem gives
the per-header pairing. -/
theorem C7_towfish_pairing_witness :
    NavigationFromTowFish.load_Nav_data_from_segyfile
      [(1, 2, 0, 0), (0, 0, 0, 0), (4, 6, 0, 0)] = [(1, 2), (4, 6)] := by
  rw [C7_towfish_pairing _ (by decide)]
  rfl

/-! ## NumPy convolution and correlation -/

/-- Elementwise sum of two sequences, the shorter one padded with zeros. -/
def padAdd : List ℝ → List ℝ → List ℝ
  | [], ys => ys
  | xs, [] => xs
  | x :: xs, y :: ys => (x + y) :: padAdd xs ys

/-- `np.convolve(a, v, mode='full')`, written as the usual shift-and-add
recursion on the first argument. -/
def npConvolveFull : List ℝ → List ℝ → List ℝ
  | [], _ => []
  | a :: as, v => padAdd (v.map (fun x => a * x)) (0 :: npConvolveFull as v)

/-- `np.convolve(a, v, mode='same')`: the centered length-`max(M,N)` slice
of the full convolution. -/
def npConvolveSame (a v : List ℝ) : List ℝ :=
  ((npConvolveFull a v).drop ((min a.length v.length - 1) / 2)).take
    (max a.length v.length)

/-- `np.correlate(a, v, mode='full')`, which is the full convolution of `a`
with the reversal of `v` (real data, no conjugation). -/
def npCorrelateFull (a v : List ℝ) : List ℝ := npConvolveFull a v.reverse

/-- `np.correlate(a, v, mode='same')`: centered length-`max(M,N)` slice. -/
def npCorrelateSame (a v : List ℝ) : List ℝ :=
  ((npCorrelateFull a v).drop ((min a.length v.length - 1) / 2)).take
    (max a.length v.length)

theorem padAdd_length (xs ys : List ℝ) :
    (padAdd xs ys).length = max xs.length ys.length := by
  induction xs generalizing ys with
  | nil => simp [padAdd]
  | cons x xs ih =>
    cases ys with
    | nil => simp [padAdd]
    | cons y ys =>
      simp only [padAdd, List.length_cons, ih]
      omega

theorem npConvolveFull_length (a v : List ℝ) (hv : v ≠ []) :
    (npConvolveFull a v).length =
      if a.length = 0 then 0 else a.length + v.length - 1 := by
  have hv1 : 1 ≤ v.length := List.length_pos.mpr hv
  induction a with
  | nil => simp [npConvolveFull]
  | cons x xs ih =>
    simp only [npConvolveFull, padAdd_length, List.length_map, List.length_cons, ih]
    by_cases h0 : xs.length = 0
    · rw [if_pos h0, if_neg (by omega)]
      omega
    · rw [if_neg h0, if_neg (by omega)]
      omega

theorem padAdd_forall_zero {xs ys : List ℝ} (hx : ∀ z ∈ xs, z = 0)
    (hy : ∀ z ∈ ys, z = 0) : ∀ z ∈ padAdd xs ys, z = 0 := by
  induction xs generalizing ys with
  | nil => simpa [padAdd] using hy
  | cons x xs ih =>
    cases ys with
    | nil => simpa [padAdd] using hx
    | cons y ys =>
      intro z hz
      rcases List.mem_cons.mp hz with rfl | hz2
      · rw [hx x (by simp), hy y (by simp)]
        norm_num
      · exact ih (fun u hu => hx u (by simp [hu])) (fun u hu => hy u (by simp [hu])) z hz2

/-- Convolving anything with an all-zero kernel yields only zeros. -/
theorem npConvolveFull_zero (a : List ℝ) (w : ℕ) :
    ∀ z ∈ npConvolveFull a (List.replicate w (0:ℝ)), z = 0 := by
  induction a with
  | nil => simp [npConvolveFull]
  | cons x xs ih =>
    simp only [npConvolveFull]
    apply padAdd_forall_zero
    · intro z hz
      rcases List.mem_map.mp hz with ⟨u, hu, rfl⟩
      rw [List.eq_of_mem_replicate hu]
      norm_num
    · intro z hz
      rcases List.mem_cons.mp hz with rfl | hz2
      · rfl
      · exact ih z hz2

theorem npConvolveSame_zero_kernel (a : List ℝ) (w : ℕ) (ha : a ≠ [])
    (hw : 0 < w) (hwa : w ≤ a.length) :
    npConvolveSame a (List.replicate w 0) = List.replicate a.length 0 := by
  have hrep : (List.replicate w (0:ℝ)) ≠ [] := by
    cases w with
    | zero => omega
    | succ n => simp [List.replicate_succ]
  have ha0 : a.length ≠ 0 := by
    cases a with
    | nil => cases ha rfl
    | cons x xs => simp
  have hfull : npConvolveFull a (List.replicate w 0) =
      List.replicate (a.length + w - 1) 0 := by
    have hlen := npConvolveFull_length a (List.replicate w 0) hrep
    rw [if_neg ha0, List.length_replicate] at hlen
    rw [← hlen]
    exact List.eq_replicate_of_mem (npConvolveFull_zero a w)
  rw [npConvolveSame, hfull, List.drop_replicate, List.take_replicate,
    List.length_replicate]
  congr 1
  omega

/-! ## Linear algebra: `scipy.linalg.toeplitz` and `np.linalg.solve` -/

/-- `scipy.linalg.toeplitz(c)` (single argument): the symmetric Toeplitz
matrix `T[i][j] = c[|i-j|]`. -/
def toeplitzOf (c : List ℝ) (m : ℕ) : Matrix (Fin m) (Fin m) ℝ :=
  fun i j => c.getD (Int.natAbs ((i : ℤ) - (j : ℤ))) 0

/-- `np.linalg.solve(A, b)`: the exact solution of the square system, or
`LinAlgError` (`none`) when the matrix is singular.  The solution is
written in closed form through the adjugate, `x = det(A)⁻¹ · adj(A) · b`,
which equals `A⁻¹ b`. -/
def np_linalg_solve {m : ℕ} (A : Matrix (Fin m) (Fin m) ℝ) (b : Fin m → ℝ) :
    Option (Fin m → ℝ) :=
  if A.det = 0 then none else some ((A.det)⁻¹ • (A.adjugate.mulVec b))

/-- The idiom `np.correlate(trace, trace, mode='full')[len(trace)-1:]`
followed by `[:wavelet_length]`, shared by the wavelet-estimation and
deconvolution routines: the first `wavelet_length` lags of the trace
autocorrelation. -/
def autocorrSlice (trace : List ℝ) (wavelet_length : ℕ) : List ℝ :=
  ((npCorrelateFull trace trace).drop (trace.length - 1)).take wavelet_length

/-! ## deconvolution.py: the Wavelets class -/

/-- `np.max(np.abs(l))` (0 for an empty array, where NumPy would raise). -/
def npMaxAbs (l : List ℝ) : ℝ := (l.map (fun x => |x|)).foldr max 0

/-- The normalization idiom `wavelet / np.max(np.abs(wavelet))`. -/
def unitNormalize (l : List ℝ) : List ℝ := l.map (fun x => x / npMaxAbs l)

/-- `np.linspace(a, b, num)` with the default inclusive endpoint. -/
def npLinspace (a b : ℝ) (num : ℕ) : List ℝ :=
  if num = 1 then [a]
  else List.ofFn (fun i : Fin num => a + (i : ℕ) * (b - a) / ((num : ℝ) - 1))

namespace Wavelets

/-- The unnormalized Ricker wavelet samples
`(1 - 2π²f²t²)·exp(-π²f²t²)` on `np.linspace(-length/2, length/2,
int(length/dt))`. -/
def rickerRaw (frequency dt length : ℚ) : List ℝ :=
  (npLinspace (-(length : ℝ) / 2) ((length : ℝ) / 2)
      (pyInt (length / dt)).toNat).map
    (fun t => (1 - 2 * Real.pi ^ 2 * (frequency : ℝ) ^ 2 * t ^ 2) *
      Real.exp (-(Real.pi ^ 2) * (frequency : ℝ) ^ 2 * t ^ 2))

/-- `Wavelets.ricker(frequency, dt, length)`: the Ricker samples divided by
their peak absolute value. -/
def ricker (frequency dt length : ℚ) : List ℝ :=
  unitNormalize (rickerRaw frequency dt length)

/-- `Wavelets.wavelet_autocorrelation(trace, wavelet_length)`: the truncated
autocorrelation normalized to unit peak. -/
def wavelet_autocorrelation (trace : List ℝ) (wavelet_length : ℕ) : List ℝ :=
  unitNormalize (autocorrSlice trace wavelet_length)

/-- The tail of `Wavelets.wavelet_statistically` once the truncated
autocorrelation `wa` has been computed: solve
`toeplitz(wa[:-1]) · x = wa[1:]` and return `np.append(1, -x)`. -/
def statFromAutocorr (wa : List ℝ) : Option (List ℝ) :=
  (np_linalg_solve (toeplitzOf wa.dropLast (wa.length - 1))
      (fun i : Fin (wa.length - 1) => wa.getD ((i : ℕ) + 1) 0)).map
    (fun x => 1 :: (List.ofFn x).map (fun v => -v))

/-- `Wavelets.wavelet_statistically(trace, wavelet_length)`. -/
def wavelet_statistically (trace : List ℝ) (wavelet_length : ℕ) :
    Option (List ℝ) :=
  statFromAutocorr (autocorrSlice trace wavelet_length)

/-- `Wavelets.estimate_wavelet_matching_filter(trace, reflector)`:
`np.correlate(trace, reflector, mode='same')` normalized to unit peak. -/
def estimate_wavelet_matching_filter (trace reflector : List ℝ) : List ℝ :=
  unitNormalize (npCorrelateSame trace reflector)

end Wavelets

/-! ## deconvolution.py: the Deconvolution class -/

namespace Deconvolution

/-- `Deconvolution.Spiking_Deconvolution(trace, wavelet_length)`: solves
`toeplitz(autocorr[:wavelet_length]) · f = np.zeros(wavelet_length)` and
convolves the trace with the solution in `same` mode.  `none` models the
NumPy exceptions: empty inputs to `np.correlate`/`np.convolve`, the shape
mismatch in `np.linalg.solve` when the truncated autocorrelation is shorter
than `wavelet_length`, and the singular-matrix `LinAlgError`. -/
def Spiking_Deconvolution (trace : List ℝ) (wavelet_length : ℕ) :
    Option (List ℝ) :=
  if trace.length = 0 ∨ wavelet_length = 0 ∨ trace.length < wavelet_length then
    none
  else
    (np_linalg_solve (toeplitzOf (autocorrSlice trace wavelet_length) wavelet_length)
        (fun _ : Fin wavelet_length => 0)).map
      (fun coeffs => npConvolveSame trace (List.ofFn coeffs))

end Deconvolution

/-- C9: whenever the Toeplitz system is nonsingular (and the sizes are
consistent so that no shape error is raised), `Spiking_Deconvolution`
returns the all-zero trace, because the right-hand side of the solved
system is the zero vector. -/
theorem C9_spiking_deconvolution_zero (trace : List ℝ) (w : ℕ)
    (h1 : trace ≠ []) (h2 : 0 < w) (h3 : w ≤ trace.length)
    (hdet : (toeplitzOf (autocorrSlice trace w) w).det ≠ 0) :
    Deconvolution.Spiking_Deconvolution trace w =
      some (List.replicate trace.length 0) := by
  have ha0 : trace.length ≠ 0 := by
    cases trace with
    | nil => cases h1 rfl
    | cons x xs => simp
  rw [Deconvolution.Spiking_Deconvolution, if_neg (by push_neg; omega),
    np_linalg_solve, if_neg hdet]
  have hz : ((toeplitzOf (autocorrSlice trace w) w).det)⁻¹ •
      ((toeplitzOf (autocorrSlice trace w) w).adjugate.mulVec
        (fun _ : Fin w => 0)) = (fun _ : Fin w => (0 : ℝ)) := by
    have : (fun _ : Fin w => (0 : ℝ)) = (0 : Fin w → ℝ) := rfl
    rw [this, Matrix.mulVec_zero, smul_zero]
  simp only [Option.map_some']
  rw [hz, List.ofFn_const, npConvolveSame_zero_kernel trace w h1 h2 h3]

/-- Concrete evaluation of the trace autocorrelation slice used by the C9
witness. -/
theorem autocorrSlice_eval_c9 :
    autocorrSlice [(1:ℝ), 0, 0] 2 = [1, 0] := by
  norm_num [autocorrSlice, npCorrelateFull, npConvolveFull, padAdd]

/-- C9 witness: the trace `[1,0,0]` with `wavelet_length = 2` has the
identity as Toeplitz matrix, and the deconvolution output is `[0,0,0]`. -/
theorem C9_spiking_deconvolution_zero_witness :
    Deconvolution.Spiking_Deconvolution [(1:ℝ), 0, 0] 2 =
      some (List.replicate 3 0) := by
  have hdet : (toeplitzOf (autocorrSlice [(1:ℝ), 0, 0] 2) 2).det ≠ 0 := by
    rw [autocorrSlice_eval_c9, Matrix.det_fin_two]
    norm_num [toeplitzOf]
  simpa using C9_spiking_deconvolution_zero [(1:ℝ), 0, 0] 2 (by simp) (by omega)
    (by simp) hdet

/-! ## Peak normalization facts (claim C5) -/

theorem npMaxAbs_cons (x : ℝ) (l : List ℝ) :
    npMaxAbs (x :: l) = max |x| (npMaxAbs l) := rfl

theorem npMaxAbs_nonneg (l : List ℝ) : 0 ≤ npMaxAbs l := by
  induction l with
  | nil => simp [npMaxAbs]
  | cons x t ih =>
    rw [npMaxAbs_cons]
    exact le_trans ih (le_max_right _ _)

theorem le_npMaxAbs (l : List ℝ) (x : ℝ) (hx : x ∈ l) : |x| ≤ npMaxAbs l := by
  induction l with
  | nil => cases hx
  | cons a t ih =>
    rw [npMaxAbs_cons]
    rcases List.mem_cons.mp hx with rfl | hx2
    · exact le_max_left _ _
    · exact le_trans (ih hx2) (le_max_right _ _)

theorem npMaxAbs_map_div (l : List ℝ) (m : ℝ) (hm : 0 < m) :
    npMaxAbs (l.map (fun x => x / m)) = npMaxAbs l / m := by
  induction l with
  | nil => simp [npMaxAbs, List.map_nil]
  | cons x t ih =>
    rw [List.map_cons, npMaxAbs_cons, npMaxAbs_cons, ih, abs_div, abs_of_pos hm,
      div_eq_mul_inv |x| m, div_eq_mul_inv (npMaxAbs t) m,
      div_eq_mul_inv (max |x| (npMaxAbs t)) m,
      max_mul_of_nonneg _ _ (inv_nonneg.mpr hm.le)]

/-- Dividing a list by its (nonzero) peak absolute value gives a list of
unit peak absolute value. -/
theorem npMaxAbs_unitNormalize (l : List ℝ) (h : npMaxAbs l ≠ 0) :
    npMaxAbs (unitNormalize l) = 1 := by
  have hpos : 0 < npMaxAbs l := lt_of_le_of_ne (npMaxAbs_nonneg l) (Ne.symm h)
  rw [unitNormalize, npMaxAbs_map_div l _ hpos, div_self h]

/-- A `getD` access inside the bounds is a member of the list. -/
theorem getD_mem {α : Type _} (l : List α) (i : ℕ) (d : α)
    (h : i < l.length) : l.getD i d ∈ l := by
  rw [getD_of_lt _ _ _ h]
  exact l.getElem_mem h

/-- C5 (amended): the Ricker generator and the autocorrelation and
matching-filter estimates are normalized to unit peak absolute value
(whenever the unnormalized array has a nonzero peak); the statistical
(Toeplitz-solve) estimate instead normalizes its leading coefficient to 1. -/
theorem C5_wavelet_normalization :
    (∀ f dt L : ℚ, npMaxAbs (Wavelets.rickerRaw f dt L) ≠ 0 →
      npMaxAbs (Wavelets.ricker f dt L) = 1) ∧
    (∀ (trace : List ℝ) (w : ℕ), npMaxAbs (autocorrSlice trace w) ≠ 0 →
      npMaxAbs (Wavelets.wavelet_autocorrelation trace w) = 1) ∧
    (∀ trace reflector : List ℝ, npMaxAbs (npCorrelateSame trace reflector) ≠ 0 →
      npMaxAbs (Wavelets.estimate_wavelet_matching_filter trace reflector) = 1) ∧
    (∀ (trace : List ℝ) (w : ℕ) (l : List ℝ),
      Wavelets.wavelet_statistically trace w = some l → l.getD 0 0 = 1) := by
  refine ⟨fun f dt L h => npMaxAbs_unitNormalize _ h,
    fun trace w h => npMaxAbs_unitNormalize _ h,
    fun trace reflector h => npMaxAbs_unitNormalize _ h, ?_⟩
  intro trace w l h
  rw [Wavelets.wavelet_statistically, Wavelets.statFromAutocorr] at h
  cases hs : np_linalg_solve
      (toeplitzOf (autocorrSlice trace w).dropLast
        ((autocorrSlice trace w).length - 1))
      (fun i : Fin ((autocorrSlice trace w).length - 1) =>
        (autocorrSlice trace w).getD ((i : ℕ) + 1) 0) with
  | none =>
    rw [hs] at h
    cases h
  | some x =>
    rw [hs] at h
    simp only [Option.map_some'] at h
    cases h
    rfl

/-- Concrete evaluation of the statistical wavelet estimate on the trace
`[-2, -3, -3, -2]` with `wavelet_length = 3`: the solved prediction
coefficients are `[294/235, -129/235]`, so the returned array is
`[1, -294/235, 129/235]`. -/
theorem statEval_c5 :
    Wavelets.wavelet_statistically [(-2 : ℝ), -3, -3, -2] 3 =
      some [1, -(294/235 : ℝ), 129/235] := by
  have hwa : autocorrSlice [(-2 : ℝ), -3, -3, -2] 3 = [26, 21, 12] := by
    norm_num [autocorrSlice, npCorrelateFull, npConvolveFull, padAdd]
  rw [Wavelets.wavelet_statistically, hwa, Wavelets.statFromAutocorr]
  show (np_linalg_solve (toeplitzOf [(26:ℝ), 21] 2)
      (fun i : Fin 2 => [(26:ℝ), 21, 12].getD ((i : ℕ) + 1) 0)).map
      (fun x => 1 :: (List.ofFn x).map (fun v => -v)) =
      some [1, -(294/235 : ℝ), 129/235]
  have hT : toeplitzOf [(26:ℝ), 21] 2 = !![26, 21; 21, 26] := by
    apply Matrix.ext
    intro i j
    fin_cases i <;> fin_cases j <;> simp [toeplitzOf, List.getD]
  rw [hT, np_linalg_solve, if_neg (by rw [Matrix.det_fin_two_of]; norm_num)]
  simp only [Option.map_some']
  congr 1
  rw [Matrix.det_fin_two_of, Matrix.adjugate_fin_two_of]
  norm_num [Matrix.mulVec, Matrix.dotProduct, Fin.sum_univ_two, List.ofFn_succ,
    List.getD, Matrix.cons_val_zero, Matrix.cons_val_one, Matrix.head_cons]

/-- C5 counterexample: the statistical wavelet estimate on the trace
`[-2, -3, -3, -2]` has peak absolute value `294/235 ≈ 1.251`, not 1 — it is
not normalized to unit peak amplitude. -/
theorem C5_statistical_not_unit_peak :
    ∃ l, Wavelets.wavelet_statistically [(-2 : ℝ), -3, -3, -2] 3 = some l ∧
      1 + 1/1000000000 < npMaxAbs l := by
  refine ⟨_, statEval_c5, ?_⟩
  have hmem : (-(294/235 : ℝ)) ∈ [1, -(294/235 : ℝ), 129/235] := by simp
  have hle := le_npMaxAbs _ _ hmem
  have habs : |(-(294/235 : ℝ))| = 294/235 := by
    rw [abs_neg, abs_of_pos]
    norm_num
  rw [habs] at hle
  have : (1 : ℝ) + 1/1000000000 < 294/235 := by norm_num
  linarith

/-- C5 witness: concrete instances of the three unit-peak generators and the
leading-one of the statistical estimate. -/
theorem C5_wavelet_normalization_witness :
    npMaxAbs (Wavelets.ricker 1 1 3) = 1 ∧
    npMaxAbs (Wavelets.wavelet_autocorrelation [(1:ℝ), 0] 1) = 1 ∧
    npMaxAbs (Wavelets.estimate_wavelet_matching_filter [(1:ℝ)] [(1:ℝ)]) = 1 ∧
    ([1, -(294/235 : ℝ), 129/235]).getD 0 0 = 1 := by
  have hnum : (pyInt ((3 : ℚ) / 1)).toNat = 3 := by
    have h31 : (3 : ℚ)/1 = 3 := by norm_num
    rw [h31]
    rfl
  have hlen : (Wavelets.rickerRaw 1 1 3).length = 3 := by
    rw [Wavelets.rickerRaw, hnum, npLinspace, if_neg (by norm_num)]
    simp
  have hval : (Wavelets.rickerRaw 1 1 3).getD 1 0 = 1 := by
    rw [Wavelets.rickerRaw, hnum, npLinspace, if_neg (by norm_num)]
    rw [getD_of_lt _ 1 _ (by simp), List.getElem_map, List.getElem_ofFn]
    norm_num [Real.exp_zero]
  have hraw : npMaxAbs (Wavelets.rickerRaw 1 1 3) ≠ 0 := by
    have hmem : (1 : ℝ) ∈ Wavelets.rickerRaw 1 1 3 := by
      rw [← hval]
      exact getD_mem _ 1 0 (by omega)
    have hle := le_npMaxAbs _ _ hmem
    rw [abs_one] at hle
    intro h0
    rw [h0] at hle
    norm_num at hle
  have hac : autocorrSlice [(1:ℝ), 0] 1 = [1] := by
    norm_num [autocorrSlice, npCorrelateFull, npConvolveFull, padAdd]
  have hcs : npCorrelateSame [(1:ℝ)] [(1:ℝ)] = [1] := by
    norm_num [npCorrelateSame, npCorrelateFull, npConvolveFull, padAdd]
  refine ⟨C5_wavelet_normalization.1 1 1 3 hraw,
    C5_wavelet_normalization.2.1 [(1:ℝ), 0] 1 ?_,
    C5_wavelet_normalization.2.2.1 [(1:ℝ)] [(1:ℝ)] ?_,
    C5_wavelet_normalization.2.2.2 [(-2:ℝ), -3, -3, -2] 3 _ statEval_c5⟩
  · rw [hac, npMaxAbs_cons]
    norm_num [npMaxAbs]
  · rw [hcs, npMaxAbs_cons]
    norm_num [npMaxAbs]

end

/-! ## filters.py: IIR filter parameter validation (claim C2)

The `IIR_Filters` methods check `freq >= nyquist` themselves and delegate
everything else to `scipy.signal.butter`, whose `ValueError`s are caught and
re-raised wrapped in a generic message.  The embedding records the design
request forwarded to `butter` (order, band type, normalized critical
frequencies), which is what the claim about validation and clamping is
about; the filter arithmetic itself (`sosfilt`, which never raises and
preserves length) is not needed to settle the claim. -/

/-- A Python error surfaced by a filter function: either the function's own
pre-filtering parameter check, or a library error caught and re-raised
wrapped in a generic message. -/
inductive FilterErr where
  | invalidParam (msg : String)
  | wrapped (msg : String)
deriving DecidableEq

/-- The design request the repository code forwards to
`scipy.signal.butter`. -/
structure ButterCall where
  order : ℤ
  btype : String
  wn : List ℚ
deriving DecidableEq

/-- `scipy.signal.butter` parameter validation: the order must be a
nonnegative integer, digital critical frequencies must satisfy
`0 < Wn < 1`, and band edges must be strictly increasing. -/
def scipy_butter (order : ℤ) (btype : String) (wn : List ℚ) :
    Except String ButterCall :=
  if order < 0 then .error "Filter order must be a nonnegative integer"
  else if ¬ (∀ w ∈ wn, 0 < w ∧ w < 1) then
    .error "Digital filter critical frequencies must be 0 < Wn < 1"
  else if 2 ≤ wn.length ∧ wn.getD 1 0 ≤ wn.getD 0 0 then
    .error "Wn[0] must be less than Wn[1]"
  else .ok ⟨order, btype, wn⟩

namespace IIR_Filters

/-- `IIR_Filters.highpass_filter(signal_data, sample_rate, filter_order,
freq)`: rejects `freq >= nyquist` before filtering, then calls
`signal.butter(filter_order, freq, 'highpass', fs=sample_rate)` inside a
`try` that wraps any `ValueError`. -/
def highpass_filter (signal_data : List ℝ) (sample_rate : ℚ)
    (filter_order : ℤ) (freq : ℚ) : Except FilterErr ButterCall :=
  if sample_rate / 2 ≤ freq then
    .error (.invalidParam
      "Highpass filter frequency must be less than Nyquist frequency.")
  else
    match scipy_butter filter_order "highpass" [freq / (sample_rate / 2)] with
    | .ok c => .ok c
    | .error e => .error (.wrapped ("Error applying highpass filter: " ++ e))

/-- `IIR_Filters.bandpass_filter(signal_data, sample_rate, filter_order,
freqmin, freqmax)`: rejects `freqmin >= nyquist or freqmax >= nyquist`
before filtering, then calls `signal.butter` with both edges. -/
def bandpass_filter (signal_data : List ℝ) (sample_rate : ℚ)
    (filter_order : ℤ) (freqmin freqmax : ℚ) : Except FilterErr ButterCall :=
  if sample_rate / 2 ≤ freqmin ∨ sample_rate / 2 ≤ freqmax then
    .error (.invalidParam
      "Bandpass filter frequencies must be less than Nyquist frequency.")
  else
    match scipy_butter filter_order "bandpass"
        [freqmin / (sample_rate / 2), freqmax / (sample_rate / 2)] with
    | .ok c => .ok c
    | .error e => .error (.wrapped ("Error applying bandpass filter: " ++ e))

end IIR_Filters

/-- C2 counterexample: filter order 101 lies outside `[1, 100]`, yet the
highpass filter accepts it and filters — no `InvalidFilterParameter` is ever
raised for an out-of-range order. -/
theorem C2_order_not_validated :
    ¬ (1 ≤ (101:ℤ) ∧ (101:ℤ) ≤ 100) ∧
    IIR_Filters.highpass_filter [(1:ℝ), 2, 3] 1000 101 100 =
      .ok ⟨101, "highpass", [100 / (1000 / 2)]⟩ := by
  constructor
  · decide
  · rw [IIR_Filters.highpass_filter, if_neg (by norm_num), scipy_butter,
      if_neg (by norm_num), if_neg (by
        rw [not_not]
        intro w hw
        rw [List.mem_singleton] at hw
        subst hw
        norm_num), if_neg (by norm_num)]

/-- C2 (amended): the only pre-filtering validation is `cutoff ≥ Nyquist`
(raised as the function's own parameter error); a nonpositive cutoff is
rejected only by the scipy design routine, whose error is re-raised wrapped
in a generic message; the filter order is never checked against `[1, 100]`
— any order `≥ 0` together with a cutoff inside `(0, Nyquist)` succeeds —
and the parameters are forwarded to the design routine unclamped. -/
theorem C2_filter_validation :
    (∀ (sig : List ℝ) (fs : ℚ) (order : ℤ) (freq : ℚ), 0 < fs →
      ((fs / 2 ≤ freq → ∃ msg,
          IIR_Filters.highpass_filter sig fs order freq =
            .error (.invalidParam msg)) ∧
       (0 < freq → freq < fs / 2 → 0 ≤ order →
          IIR_Filters.highpass_filter sig fs order freq =
            .ok ⟨order, "highpass", [freq / (fs / 2)]⟩) ∧
       (freq ≤ 0 → freq < fs / 2 → 0 ≤ order → ∃ msg,
          IIR_Filters.highpass_filter sig fs order freq =
            .error (.wrapped msg)))) ∧
    (∀ (sig : List ℝ) (fs : ℚ) (order : ℤ) (fmin fmax : ℚ), 0 < fs →
      ((fs / 2 ≤ fmin ∨ fs / 2 ≤ fmax → ∃ msg,
          IIR_Filters.bandpass_filter sig fs order fmin fmax =
            .error (.invalidParam msg)) ∧
       (0 < fmin → fmin < fmax → fmax < fs / 2 → 0 ≤ order →
          IIR_Filters.bandpass_filter sig fs order fmin fmax =
            .ok ⟨order, "bandpass", [fmin / (fs / 2), fmax / (fs / 2)]⟩))) := by
  constructor
  · intro sig fs order freq hfs
    have hnyq : 0 < fs / 2 := by positivity
    refine ⟨?_, ?_, ?_⟩
    · intro h
      exact ⟨_, by rw [IIR_Filters.highpass_filter, if_pos h]⟩
    · intro h1 h2 horder
      have hsb : scipy_butter order "highpass" [freq / (fs / 2)] =
          .ok ⟨order, "highpass", [freq / (fs / 2)]⟩ := by
        rw [scipy_butter, if_neg (not_lt.mpr horder), if_neg (by
          rw [not_not]
          intro w hw
          rw [List.mem_singleton] at hw
          subst hw
          exact ⟨div_pos h1 hnyq, (div_lt_one hnyq).mpr h2⟩),
          if_neg (by norm_num)]
      rw [IIR_Filters.highpass_filter, if_neg (not_le.mpr h2), hsb]
    · intro h1 h2 horder
      have hsb : scipy_butter order "highpass" [freq / (fs / 2)] =
          .error "Digital filter critical frequencies must be 0 < Wn < 1" := by
        rw [scipy_butter, if_neg (not_lt.mpr horder), if_pos (by
          intro hall
          have := (hall (freq / (fs / 2)) (by simp)).1
          have hnp : freq / (fs / 2) ≤ 0 :=
            div_nonpos_iff.mpr (Or.inr ⟨h1, hnyq.le⟩)
          linarith)]
      exact ⟨_, by rw [IIR_Filters.highpass_filter, if_neg (not_le.mpr h2), hsb]⟩
  · intro sig fs order fmin fmax hfs
    have hnyq : 0 < fs / 2 := by positivity
    constructor
    · intro h
      exact ⟨_, by rw [IIR_Filters.bandpass_filter, if_pos h]⟩
    · intro h1 h2 h3 horder
      have hmincut : fmin < fs / 2 := lt_trans h2 h3
      have hsb : scipy_butter order "bandpass" [fmin / (fs / 2), fmax / (fs / 2)] =
          .ok ⟨order, "bandpass", [fmin / (fs / 2), fmax / (fs / 2)]⟩ := by
        rw [scipy_butter, if_neg (not_lt.mpr horder), if_neg (by
          rw [not_not]
          intro w hw
          rcases List.mem_cons.mp hw with rfl | hw2
          · exact ⟨div_pos h1 hnyq, (div_lt_one hnyq).mpr hmincut⟩
          · rw [List.mem_singleton] at hw2
            subst hw2
            exact ⟨div_pos (lt_trans h1 h2) hnyq, (div_lt_one hnyq).mpr h3⟩),
          if_neg (by
            intro hcon
            have hle := hcon.2
            simp only [List.getD_cons_succ, List.getD_cons_zero] at hle
            have : fmax ≤ fmin := (div_le_div_iff_of_pos_right hnyq).mp hle
            linarith)]
      rw [IIR_Filters.bandpass_filter,
        if_neg (by push_neg; exact ⟨hmincut, h3⟩), hsb]

/-- C2 witness: concrete instances of each validation behavior of the
amended claim. -/
theorem C2_filter_validation_witness :
    (∃ msg, IIR_Filters.highpass_filter [(1:ℝ)] 1000 4 600 =
      .error (.invalidParam msg)) ∧
    IIR_Filters.highpass_filter [(1:ℝ)] 1000 4 100 =
      .ok ⟨4, "highpass", [100 / (1000 / 2)]⟩ ∧
    (∃ msg, IIR_Filters.highpass_filter [(1:ℝ)] 1000 4 (-5) =
      .error (.wrapped msg)) ∧
    IIR_Filters.bandpass_filter [(1:ℝ)] 1000 4 100 200 =
      .ok ⟨4, "bandpass", [100 / (1000 / 2), 200 / (1000 / 2)]⟩ :=
  ⟨(C2_filter_validation.1 [(1:ℝ)] 1000 4 600 (by norm_num)).1 (by norm_num),
   (C2_filter_validation.1 [(1:ℝ)] 1000 4 100 (by norm_num)).2.1
     (by norm_num) (by norm_num) (by norm_num),
   (C2_filter_validation.1 [(1:ℝ)] 1000 4 (-5) (by norm_num)).2.2
     (by norm_num) (by norm_num) (by norm_num),
   (C2_filter_validation.2 [(1:ℝ)] 1000 4 100 200 (by norm_num)).2
     (by norm_num) (by norm_num) (by norm_num) (by norm_num)⟩

/-! ## filters.py: the F-K filter (claim C10) -/

noncomputable section

/-- Wrap-around (periodic) index into a sequence of length `n`, as used by
`scipy.signal.convolve2d(..., boundary='wrap')`. -/
def wrapIdx (z : ℤ) (n : ℕ) : ℕ := (z.emod n).toNat

/-- Two-dimensional array access with NumPy-style zero default. -/
def at2 (d : List (List ℝ)) (i j : ℕ) : ℝ := (d.getD i []).getD j 0

/-- One entry of the 2D Gaussian window of `fk_filter`:
`np.exp(-(X**2 + Y**2) / (2 * (filter_order / 6)**2))` where the mesh runs
over `np.arange(-filter_order // 2, filter_order // 2)` (Python floor
division). -/
def gaussWinVal (o : ℤ) (r c : ℕ) : ℝ :=
  Real.exp (-((((Int.fdiv (-o) 2 + c : ℤ) : ℝ) ^ 2 +
    ((Int.fdiv (-o) 2 + r : ℤ) : ℝ) ^ 2) / (2 * ((o : ℝ) / 6) ^ 2)))

/-- `np.sum(window)` for the 2D Gaussian window. -/
def gaussWinSum (o : ℤ) : ℝ :=
  ∑ r ∈ Finset.range o.toNat, ∑ c ∈ Finset.range o.toNat, gaussWinVal o r c

/-- The normalized window `window / np.sum(window)`. -/
def fkWindow (o : ℤ) (r c : ℕ) : ℝ := gaussWinVal o r c / gaussWinSum o

/-- `scipy.signal.convolve2d(data, kernel, mode='same', boundary='wrap')`:
output shape equals the data shape, the kernel is centered, and indices
wrap around periodically at the matrix edges. -/
def convolve2d_wrap_same (data : List (List ℝ)) (ker : ℕ → ℕ → ℝ)
    (kr kc : ℕ) : List (List ℝ) :=
  (List.range data.length).map (fun (i : ℕ) =>
    (List.range (data.getD 0 []).length).map (fun (j : ℕ) =>
      ∑ k ∈ Finset.range kr, ∑ l ∈ Finset.range kc,
        ker k l * at2 data (wrapIdx ((i : ℤ) + (kr / 2 : ℕ) - k) data.length)
          (wrapIdx ((j : ℤ) + (kc / 2 : ℕ) - l) (data.getD 0 []).length)))

namespace FIR_Filters

/-- `FIR_Filters.fk_filter(signal_data, sample_rate, filter_order)`: builds
the normalized 2D Gaussian window of size `filter_order × filter_order` and
convolves it with the matrix in `same` mode with wrap-around boundary. -/
def fk_filter (signal_data : List (List ℝ)) (sample_rate : ℚ)
    (filter_order : ℤ) : List (List ℝ) :=
  convolve2d_wrap_same signal_data (fkWindow filter_order)
    filter_order.toNat filter_order.toNat

end FIR_Filters

theorem wrapIdx_lt (z : ℤ) (n : ℕ) (hn : 0 < n) : wrapIdx z n < n := by
  have hne : (n : ℤ) ≠ 0 := by
    intro h
    omega
  have h1 : 0 ≤ z.emod n := Int.emod_nonneg z hne
  have h2 : z.emod n < n := Int.emod_lt_of_pos z (by omega)
  rw [wrapIdx]
  omega

theorem gaussWinSum_pos (o : ℤ) (ho : 1 ≤ o) : 0 < gaussWinSum o := by
  have hn : (Finset.range o.toNat).Nonempty := by
    rw [Finset.nonempty_range_iff]
    omega
  refine Finset.sum_pos (fun r hr => Finset.sum_pos (fun c hc => ?_) hn) hn
  exact Real.exp_pos _

/-- C10: on a constant matrix the F-K filter is the identity: the Gaussian
kernel is normalized to total mass one and the wrap-around boundary means
every accessed sample is the constant, so each output entry is the input
constant. -/
theorem C10_fk_filter_constant (data : List (List ℝ)) (sr : ℚ) (o : ℤ)
    (c : ℝ) (ho : 1 ≤ o) (hR : 0 < data.length)
    (hC : 0 < (data.getD 0 []).length)
    (hrect : ∀ row ∈ data, row.length = (data.getD 0 []).length)
    (hconst : ∀ i j, i < data.length → j < (data.getD 0 []).length →
      at2 data i j = c) :
    FIR_Filters.fk_filter data sr o = data := by
  have hS : gaussWinSum o ≠ 0 := (gaussWinSum_pos o ho).ne'
  have htoN : 0 < o.toNat := by omega
  rw [FIR_Filters.fk_filter, convolve2d_wrap_same]
  apply List.ext_getElem
  · simp only [List.length_map, List.length_range]
  · intro i h1 h2
    have hi : i < data.length := by
      simpa only [List.length_map, List.length_range] using h1
    have hrowlen : data[i].length = (data.getD 0 []).length :=
      hrect data[i] (data.getElem_mem hi)
    simp only [List.getElem_map, List.getElem_range]
    apply List.ext_getElem
    · simp only [List.length_map, List.length_range, hrowlen]
    · intro j h3 h4
      have hj : j < (data.getD 0 []).length := by
        simpa only [List.length_map, List.length_range] using h3
      simp only [List.getElem_map, List.getElem_range]
      have hentry : ∀ k l : ℕ,
          fkWindow o k l * at2 data
            (wrapIdx ((i : ℤ) + (o.toNat / 2 : ℕ) - k) data.length)
            (wrapIdx ((j : ℤ) + (o.toNat / 2 : ℕ) - l) (data.getD 0 []).length)
            = gaussWinVal o k l / gaussWinSum o * c := by
        intro k l
        rw [hconst _ _ (wrapIdx_lt _ _ hR) (wrapIdx_lt _ _ hC), fkWindow]
      calc (∑ k ∈ Finset.range o.toNat, ∑ l ∈ Finset.range o.toNat,
              fkWindow o k l * at2 data
                (wrapIdx ((i : ℤ) + (o.toNat / 2 : ℕ) - k) data.length)
                (wrapIdx ((j : ℤ) + (o.toNat / 2 : ℕ) - l)
                  (data.getD 0 []).length))
          = ∑ k ∈ Finset.range o.toNat, ∑ l ∈ Finset.range o.toNat,
              gaussWinVal o k l / gaussWinSum o * c := by
            refine Finset.sum_congr rfl (fun k hk => ?_)
            refine Finset.sum_congr rfl (fun l hl => ?_)
            exact hentry k l
        _ = (∑ k ∈ Finset.range o.toNat, ∑ l ∈ Finset.range o.toNat,
              gaussWinVal o k l) / gaussWinSum o * c := by
            rw [Finset.sum_div, Finset.sum_mul]
            refine Finset.sum_congr rfl (fun k hk => ?_)
            rw [Finset.sum_div, Finset.sum_mul]
        _ = c := by
            rw [← gaussWinSum, div_self hS, one_mul]
        _ = data[i][j] := by
            have := hconst i j hi hj
            rw [at2, getD_of_lt data i [] hi, getD_of_lt _ j _ (by omega)] at this
            rw [this]

/-- C10 witness: a concrete 1×1 constant matrix with `filter_order = 1`. -/
theorem C10_fk_filter_constant_witness :
    FIR_Filters.fk_filter [[(2:ℝ)]] 1 1 = [[(2:ℝ)]] := by
  refine C10_fk_filter_constant [[(2:ℝ)]] 1 1 2 (by norm_num) (by simp)
    (by simp) (by simp) ?_
  intro i j hi hj
  have hi0 : i = 0 := by simpa using hi
  have hj0 : j = 0 := by simpa using hj
  subst hi0
  subst hj0
  rfl

/-! ## Gains.py: AGC -/

namespace Gains

/-- One trace of `agc_gain`: local RMS by a same-length convolution of the
squared envelope with `np.ones(window_size)/window_size`, the RMS floor
clamp at `1e-10`, then elementwise division.  `none` models the NumPy
broadcast error raised when the RMS array length differs from the trace
length (which happens when `window_size` exceeds the trace length, since
`same` mode returns `max(M, N)` samples). -/
def agc_row (trace : List ℝ) (window_size : ℕ) : Option (List ℝ) :=
  let envelope := trace.map (fun x => |x|)
  let rms0 := (npConvolveSame (envelope.map (fun x => x ^ 2))
      (List.replicate window_size ((1 : ℝ) / (window_size : ℝ)))).map Real.sqrt
  let rms := rms0.map (fun x => if x < 1/10000000000 then 1/10000000000 else x)
  if rms.length = trace.length then
    some (trace.zipWith (fun x r => x / r) rms)
  else none

/-- `agc_gain(data, window_size)`: AGC applied trace by trace into a fresh
`np.zeros_like` array; the first per-trace error aborts the whole call. -/
def agc_gain : List (List ℝ) → ℕ → Option (List (List ℝ))
  | [], _ => some []
  | row :: rest, window_size => do
      let r ← agc_row row window_size
      let rs ← agc_gain rest window_size
      some (r :: rs)

end Gains

/-! ## Buffer-level (store-passing) models of the processing operations
(claim C8)

A store is the list of allocated 2D arrays in allocation order; an array is
referred to by its index.  Each NumPy call of the Python code either
allocates a fresh array (`np.copy`, `np.zeros_like`, arithmetic on whole
arrays) or writes in place into a named array (slice assignment, row
assignment in a loop; consecutive writes to the same array are represented
as one store update with the final value).  The `_st` functions replay each
operation's buffer behavior: which array is allocated, which array is
written. -/

abbrev NpStore (α : Type) : Type := List (List (List α))

def getArr {α : Type} (s : NpStore α) (i : ℕ) : List (List α) := s.getD i []

def allocArr {α : Type} (s : NpStore α) (v : List (List α)) : NpStore α × ℕ :=
  (s ++ [v], s.length)

def setArr {α : Type} (s : NpStore α) (i : ℕ) (v : List (List α)) : NpStore α :=
  s.set i v

theorem getArr_alloc {α : Type} (s : NpStore α) (v : List (List α)) (d : ℕ)
    (hd : d < s.length) : getArr (s ++ [v]) d = getArr s d := by
  rw [getArr, getArr, List.getD_eq_getElem?_getD, List.getD_eq_getElem?_getD,
    List.getElem?_append_left hd]

theorem getArr_alloc_set {α : Type} (s : NpStore α) (v w : List (List α))
    (d : ℕ) (hd : d < s.length) :
    getArr (setArr (s ++ [v]) s.length w) d = getArr s d := by
  rw [setArr, getArr, getArr, List.getD_eq_getElem?_getD,
    List.getD_eq_getElem?_getD, List.getElem?_set_ne (by omega),
    List.getElem?_append_left hd]

namespace Mute

/-- Store-level `top_mute`: `np.copy(data)` allocates, the slice assignment
writes into the copy. -/
def top_mute_st (s : NpStore ℝ) (data : ℕ) (mt si : ℚ) : NpStore ℝ × ℕ :=
  let a := allocArr s (getArr s data)
  (setArr a.1 a.2 (top_mute (getArr s data) mt si), a.2)

/-- Store-level `bottom_mute`. -/
def bottom_mute_st (s : NpStore ℝ) (data : ℕ) (mt si : ℚ) : NpStore ℝ × ℕ :=
  let a := allocArr s (getArr s data)
  (setArr a.1 a.2 (bottom_mute (getArr s data) mt si), a.2)

/-- Store-level `offset_mute`: the per-trace zeroing loop writes only into
the copy (also on the partial write before an `IndexError`). -/
def offset_mute_st (s : NpStore ℝ) (data : ℕ) (offsets : List ℚ)
    (mute_offset : ℚ) : NpStore ℝ × ℕ :=
  let a := allocArr s (getArr s data)
  (setArr a.1 a.2
    ((getArr s data).mapIdx (fun i row =>
      if i < offsets.length ∧ mute_offset < offsets.getD i 0 then
        List.replicate row.length 0
      else row)), a.2)

/-- Store-level `time_variant_mute`: the ramp loop writes only into the
copy. -/
def time_variant_mute_st (s : NpStore ℝ) (data : ℕ)
    (initial_time final_time sample_interval : ℚ) : NpStore ℝ × ℕ :=
  let ms := pyInt (initial_time / sample_interval)
  let me := pyInt (final_time / sample_interval)
  let a := allocArr s (getArr s data)
  (setArr a.1 a.2
    ((getArr s data).map (fun row => row.mapIdx (fun i x =>
      if ms ≤ (i : ℤ) ∧ (i : ℤ) < me then
        x * (1 - ((((i : ℤ) - ms : ℤ) : ℝ) / (((me - ms : ℤ)) : ℝ)))
      else x))), a.2)

end Mute

namespace Gains

/-- Store-level `constant_gain`: `data * gain_factor` allocates the result,
nothing is written in place. -/
def constant_gain_st (s : NpStore ℝ) (data : ℕ) (gain_factor : ℚ) :
    NpStore ℝ × ℕ :=
  allocArr s (constant_gain (getArr s data) gain_factor)

/-- Store-level `tvg_gain`: `np.zeros_like(data)` allocates, the per-trace
loop writes rows into that fresh array. -/
def tvg_gain_st (s : NpStore ℝ) (data : ℕ) (time_gradient : ℚ) :
    NpStore ℝ × ℕ :=
  let a := allocArr s ((getArr s data).map (fun row => row.map (fun _ => 0)))
  (setArr a.1 a.2 (tvg_gain (getArr s data) time_gradient), a.2)

/-- Store-level `agc_gain`: `np.zeros_like(data)` allocates, the per-trace
loop writes rows into that fresh array (partially, when a broadcast error
interrupts it). -/
def agc_gain_st (s : NpStore ℝ) (data : ℕ) (window_size : ℕ) :
    NpStore ℝ × ℕ :=
  let a := allocArr s ((getArr s data).map (fun row => row.map (fun _ => 0)))
  (setArr a.1 a.2
    (match agc_gain (getArr s data) window_size with
     | some v => v
     | none => (getArr s data).map (fun row => row.map (fun _ => 0))), a.2)

end Gains

namespace TraceQC

/-- `TraceQC.annotate_traces(data, flagged_indices)` value level: a copy of
the data with every flagged trace's samples replaced by NaN.  Matrix
entries are `Option ℝ` with `none` playing NaN. -/
def annotate_traces (data : List (List (Option ℝ))) (flagged : List ℕ) :
    List (List (Option ℝ)) :=
  data.mapIdx (fun i row => if i ∈ flagged then row.map (fun _ => none) else row)

/-- Store-level `annotate_traces`: `data.copy()` allocates, the flagged-row
assignments write into the copy. -/
def annotate_traces_st (s : NpStore (Option ℝ)) (data : ℕ)
    (flagged : List ℕ) : NpStore (Option ℝ) × ℕ :=
  let a := allocArr s (getArr s data)
  (setArr a.1 a.2 (annotate_traces (getArr s data) flagged), a.2)

end TraceQC

/-- C8: every modelled mute, gain and QC-annotation operation allocates a
fresh output array (its index is the next free allocation slot) and leaves
the caller's input array unchanged in the store. -/
theorem C8_fresh_output_input_unchanged :
    (∀ (s : NpStore ℝ) (d : ℕ) (mt si : ℚ), d < s.length →
      getArr (Mute.top_mute_st s d mt si).1 d = getArr s d ∧
      (Mute.top_mute_st s d mt si).2 = s.length) ∧
    (∀ (s : NpStore ℝ) (d : ℕ) (mt si : ℚ), d < s.length →
      getArr (Mute.bottom_mute_st s d mt si).1 d = getArr s d ∧
      (Mute.bottom_mute_st s d mt si).2 = s.length) ∧
    (∀ (s : NpStore ℝ) (d : ℕ) (offs : List ℚ) (mo : ℚ), d < s.length →
      getArr (Mute.offset_mute_st s d offs mo).1 d = getArr s d ∧
      (Mute.offset_mute_st s d offs mo).2 = s.length) ∧
    (∀ (s : NpStore ℝ) (d : ℕ) (it ft si : ℚ), d < s.length →
      getArr (Mute.time_variant_mute_st s d it ft si).1 d = getArr s d ∧
      (Mute.time_variant_mute_st s d it ft si).2 = s.length) ∧
    (∀ (s : NpStore ℝ) (d : ℕ) (g : ℚ), d < s.length →
      getArr (Gains.constant_gain_st s d g).1 d = getArr s d ∧
      (Gains.constant_gain_st s d g).2 = s.length) ∧
    (∀ (s : NpStore ℝ) (d : ℕ) (tg : ℚ), d < s.length →
      getArr (Gains.tvg_gain_st s d tg).1 d = getArr s d ∧
      (Gains.tvg_gain_st s d tg).2 = s.length) ∧
    (∀ (s : NpStore ℝ) (d : ℕ) (w : ℕ), d < s.length →
      getArr (Gains.agc_gain_st s d w).1 d = getArr s d ∧
      (Gains.agc_gain_st s d w).2 = s.length) ∧
    (∀ (s : NpStore (Option ℝ)) (d : ℕ) (flagged : List ℕ), d < s.length →
      getArr (TraceQC.annotate_traces_st s d flagged).1 d = getArr s d ∧
      (TraceQC.annotate_traces_st s d flagged).2 = s.length) := by
  refine ⟨?_, ?_, ?_, ?_, ?_, ?_, ?_, ?_⟩ <;> intro s d
  · intro mt si hd
    exact ⟨getArr_alloc_set s _ _ d hd, rfl⟩
  · intro mt si hd
    exact ⟨getArr_alloc_set s _ _ d hd, rfl⟩
  · intro offs mo hd
    exact ⟨getArr_alloc_set s _ _ d hd, rfl⟩
  · intro it ft si hd
    exact ⟨getArr_alloc_set s _ _ d hd, rfl⟩
  · intro g hd
    exact ⟨getArr_alloc s _ d hd, rfl⟩
  · intro tg hd
    exact ⟨getArr_alloc_set s _ _ d hd, rfl⟩
  · intro w hd
    exact ⟨getArr_alloc_set s _ _ d hd, rfl⟩
  · intro flagged hd
    exact ⟨getArr_alloc_set s _ _ d hd, rfl⟩

/-! ## filters.py: the wavelet-denoising filter (pywt model, claim C1)

`FIR_Filters.wavelet_filter` decomposes the trace with `pywt.wavedec`
(default wavelet db4, eight filter taps, default mode `symmetric`),
soft-thresholds each detail level at its standard deviation, and
reconstructs with `pywt.waverec`.  The model below implements the pywt
algorithms: per level the signal is symmetrically extended by
`filter length - 1` samples on each side, convolved, and downsampled
(coefficient length `floor((n + 7) / 2)`); reconstruction upsamples,
convolves and trims to `2·len - filter_length + 2` samples, `waverec`
dropping the last approximation sample when it is one longer than the
detail vector.  The filter taps are pywt's double-precision db4
coefficients; only their count is load-bearing for shape claims. -/

/-- pywt db4 decomposition lowpass filter. -/
def db4_dec_lo : List ℝ :=
  [-0.010597401784997278, 0.032883011666982945, 0.030841381835986965,
   -0.18703481171888114, -0.02798376941698385, 0.6308807679295904,
   0.7148465705525415, 0.23037781330885523]

/-- pywt db4 decomposition highpass filter (quadrature mirror of the
lowpass). -/
def db4_dec_hi : List ℝ :=
  (db4_dec_lo.reverse).mapIdx (fun i x => if i % 2 = 0 then x else -x)

/-- pywt db4 reconstruction lowpass filter. -/
def db4_rec_lo : List ℝ := db4_dec_lo.reverse

/-- pywt db4 reconstruction highpass filter. -/
def db4_rec_hi : List ℝ := db4_dec_hi.reverse

/-- Symmetric (half-sample) extension by `fl` samples on each side, exact
for signals of length at least `fl`. -/
def symExt (fl : ℕ) (x : List ℝ) : List ℝ :=
  (x.take fl).reverse ++ x ++ (x.drop (x.length - fl)).reverse

/-- Valid-mode sliding-window correlation with the (reversed) filter:
length `x.length - f.length + 1`. -/
def convValid (x f : List ℝ) : List ℝ :=
  List.ofFn (fun k : Fin (x.length - f.length + 1) =>
    ∑ j ∈ Finset.range f.length, f.getD j 0 * x.getD ((k : ℕ) + j) 0)

/-- Keep every second element starting from index 1 (pywt downsampling
phase). -/
def oddStride : List ℝ → List ℝ
  | [] => []
  | [_] => []
  | _ :: b :: t => b :: oddStride t

/-- One pywt analysis step with one filter: extend, convolve, downsample. -/
def pywt_dwt (filt : List ℝ) (x : List ℝ) : List ℝ :=
  oddStride (convValid (symExt (filt.length - 1) x) filt.reverse)

/-- `pywt.wavedec(x, w, level)`: returns `(cA_level, [cD_level, ..., cD_1])`. -/
def pywt_wavedec (lo hi : List ℝ) : ℕ → List ℝ → List ℝ × List (List ℝ)
  | 0, x => (x, [])
  | n + 1, x =>
      let r := pywt_wavedec lo hi n (pywt_dwt lo x)
      (r.1, r.2 ++ [pywt_dwt hi x])

/-- Dyadic upsampling `[a0, 0, a1, 0, ..., a(m-1)]`. -/
def pywt_upsample : List ℝ → List ℝ
  | [] => []
  | [a] => [a]
  | a :: b :: t => a :: 0 :: pywt_upsample (b :: t)

/-- One reconstruction branch: upsample, convolve with a reconstruction
filter, trim the transient: length `2·len - f.length + 2`. -/
def pywt_idwt_branch (f : List ℝ) (c : List ℝ) : List ℝ :=
  ((npConvolveFull (pywt_upsample c) f).drop (f.length - 2)).take
    (2 * c.length - f.length + 2)

/-- `pywt.idwt(cA, cD, w)`: sum of the two reconstruction branches. -/
def pywt_idwt (rlo rhi : List ℝ) (a d : List ℝ) : List ℝ :=
  (pywt_idwt_branch rlo a).zipWith (fun x y => x + y) (pywt_idwt_branch rhi d)

/-- `pywt.waverec(coeffs, w)`: fold `idwt` over the detail levels, dropping
the trailing approximation sample whenever the approximation is one sample
longer than the detail vector. -/
def pywt_waverec (rlo rhi : List ℝ) (a : List ℝ) (ds : List (List ℝ)) :
    List ℝ :=
  ds.foldl (fun acc d =>
    pywt_idwt rlo rhi (if acc.length = d.length + 1 then acc.dropLast else acc) d) a

/-- `np.std(l)`: population standard deviation. -/
def np_std (l : List ℝ) : ℝ :=
  Real.sqrt ((l.map (fun x => (x - l.sum / l.length) ^ 2)).sum / l.length)

/-- `pywt.threshold(c, value, mode='soft')`:
`sign(x) * maximum(|x| - value, 0)`. -/
def pywt_threshold_soft (value : ℝ) (l : List ℝ) : List ℝ :=
  l.map (fun x => Real.sign x * max (|x| - value) 0)

namespace FIR_Filters

/-- `FIR_Filters.wavelet_filter(signal_data, 'db4', level)`: multilevel
decomposition, soft thresholding of every detail level at its standard
deviation, reconstruction. -/
def wavelet_filter (signal_data : List ℝ) (level : ℕ) : List ℝ :=
  let dec := pywt_wavedec db4_dec_lo db4_dec_hi level signal_data
  pywt_waverec db4_rec_lo db4_rec_hi dec.1
    (dec.2.map (fun c => pywt_threshold_soft (np_std c) c))

end FIR_Filters

theorem oddStride_length : ∀ l : List ℝ, (oddStride l).length = l.length / 2
  | [] => rfl
  | [_] => by simp [oddStride]
  | _ :: b :: t => by
    simp only [oddStride, List.length_cons, oddStride_length t]
    omega

theorem symExt_length (fl : ℕ) (x : List ℝ) (h : fl ≤ x.length) :
    (symExt fl x).length = x.length + 2 * fl := by
  simp only [symExt, List.length_append, List.length_reverse, List.length_take,
    List.length_drop]
  omega

theorem convValid_length (x f : List ℝ) :
    (convValid x f).length = x.length - f.length + 1 := by
  rw [convValid, List.length_ofFn]

theorem pywt_dwt_length (filt x : List ℝ) (hf : filt.length = 8)
    (hx : 7 ≤ x.length) : (pywt_dwt filt x).length = (x.length + 7) / 2 := by
  rw [pywt_dwt, oddStride_length, convValid_length, List.length_reverse, hf,
    symExt_length _ _ (by omega)]
  omega

theorem pywt_upsample_length :
    ∀ l : List ℝ, (pywt_upsample l).length =
      if l.length = 0 then 0 else 2 * l.length - 1
  | [] => rfl
  | [_] => rfl
  | a :: b :: t => by
    simp only [pywt_upsample, List.length_cons, pywt_upsample_length (b :: t)]
    rw [if_neg (by omega), if_neg (by omega)]
    omega

theorem pywt_idwt_branch_length (f c : List ℝ) (hf : f.length = 8)
    (hc : 4 ≤ c.length) :
    (pywt_idwt_branch f c).length = 2 * c.length - 6 := by
  have hup : (pywt_upsample c).length = 2 * c.length - 1 := by
    rw [pywt_upsample_length c, if_neg (by omega)]
  have hune : pywt_upsample c ≠ [] := by
    intro h
    rw [h] at hup
    simp only [List.length_nil] at hup
    omega
  have hfne : f ≠ [] := by
    intro h
    rw [h] at hf
    simp at hf
  have hconv : (npConvolveFull (pywt_upsample c) f).length =
      2 * c.length - 1 + 8 - 1 := by
    rw [npConvolveFull_length _ _ hfne, if_neg (by omega), hup, hf]
  rw [pywt_idwt_branch, List.length_take, List.length_drop, hconv, hf]
  omega

theorem pywt_idwt_length (rlo rhi a d : List ℝ) (h8a : rlo.length = 8)
    (h8b : rhi.length = 8) (ha : 4 ≤ a.length) (hd : 4 ≤ d.length)
    (had : a.length = d.length) :
    (pywt_idwt rlo rhi a d).length = 2 * d.length - 6 := by
  rw [pywt_idwt, List.length_zipWith, pywt_idwt_branch_length _ _ h8a ha,
    pywt_idwt_branch_length _ _ h8b hd, had]
  omega

theorem db4_lengths :
    db4_dec_lo.length = 8 ∧ db4_dec_hi.length = 8 ∧
    db4_rec_lo.length = 8 ∧ db4_rec_hi.length = 8 := by
  refine ⟨rfl, ?_, ?_, ?_⟩ <;>
    simp [db4_dec_hi, db4_rec_lo, db4_rec_hi, db4_dec_lo]

/-- On a 7-sample signal every wavedec coefficient vector at every level has
7 samples. -/
theorem pywt_wavedec_7 (lo hi : List ℝ) (hlo : lo.length = 8)
    (hhi : hi.length = 8) :
    ∀ (L : ℕ) (x : List ℝ), x.length = 7 →
      (pywt_wavedec lo hi L x).1.length = 7 ∧
      (pywt_wavedec lo hi L x).2.length = L ∧
      ∀ d ∈ (pywt_wavedec lo hi L x).2, d.length = 7 := by
  intro L
  induction L with
  | zero =>
    intro x hx
    exact ⟨hx, rfl, by simp [pywt_wavedec]⟩
  | succ n ih =>
    intro x hx
    have hca : (pywt_dwt lo x).length = 7 := by
      rw [pywt_dwt_length lo x hlo (by omega), hx]
    have hcd : (pywt_dwt hi x).length = 7 := by
      rw [pywt_dwt_length hi x hhi (by omega), hx]
    obtain ⟨h1, h2, h3⟩ := ih (pywt_dwt lo x) hca
    refine ⟨h1, ?_, ?_⟩
    · simp only [pywt_wavedec, List.length_append, h2, List.length_cons,
        List.length_nil]
    · intro d hd
      simp only [pywt_wavedec, List.mem_append, List.mem_cons,
        List.not_mem_nil, or_false] at hd
      rcases hd with hd | rfl
      · exact h3 d hd
      · exact hcd

/-- The waverec fold keeps producing 8-sample approximations once one has
appeared, trimming each to 7 before the next `idwt`. -/
theorem pywt_waverec_loop8 (rlo rhi : List ℝ) (h8a : rlo.length = 8)
    (h8b : rhi.length = 8) :
    ∀ (ds : List (List ℝ)) (a : List ℝ), a.length = 8 →
      (∀ d ∈ ds, d.length = 7) → (pywt_waverec rlo rhi a ds).length = 8 := by
  intro ds
  induction ds with
  | nil =>
    intro a ha hds
    exact ha
  | cons d t ih =>
    intro a ha hds
    have hd7 : d.length = 7 := hds d (by simp)
    have hstep : (pywt_idwt rlo rhi
        (if a.length = d.length + 1 then a.dropLast else a) d).length = 8 := by
      rw [if_pos (by omega)]
      rw [pywt_idwt_length rlo rhi _ _ h8a h8b (by simp [List.length_dropLast]; omega)
        (by omega) (by simp [List.length_dropLast]; omega), hd7]
    rw [pywt_waverec, List.foldl_cons]
    have hrest := ih _ hstep (fun u hu => hds u (by simp [hu]))
    rw [pywt_waverec] at hrest
    exact hrest

/-- `wavelet_filter` on a 7-sample trace returns 8 samples: the odd input
length is rounded up by the pywt reconstruction. -/
theorem wavelet_filter_length_7 (x : List ℝ) (hx : x.length = 7) :
    (FIR_Filters.wavelet_filter x 5).length = 8 := by
  obtain ⟨hlo, hhi, hrlo, hrhi⟩ := db4_lengths
  obtain ⟨h1, h2, h3⟩ := pywt_wavedec_7 db4_dec_lo db4_dec_hi hlo hhi 5 x hx
  rw [FIR_Filters.wavelet_filter]
  set dec := pywt_wavedec db4_dec_lo db4_dec_hi 5 x
  have hth : ∀ d ∈ dec.2.map (fun c => pywt_threshold_soft (np_std c) c),
      d.length = 7 := by
    intro d hd
    rcases List.mem_map.mp hd with ⟨c, hc, rfl⟩
    rw [pywt_threshold_soft, List.length_map]
    exact h3 c hc
  cases hds : dec.2.map (fun c => pywt_threshold_soft (np_std c) c) with
  | nil =>
    have : dec.2.length = 0 := by
      have := congrArg List.length hds
      simpa using this
    rw [h2] at this
    cases this
  | cons d t =>
    have hd7 : d.length = 7 := hth d (by rw [hds]; simp)
    have hfirst : (pywt_idwt db4_rec_lo db4_rec_hi
        (if dec.1.length = d.length + 1 then dec.1.dropLast else dec.1) d).length
        = 8 := by
      rw [if_neg (by omega)]
      rw [pywt_idwt_length _ _ _ _ hrlo hrhi (by omega) (by omega) (by omega), hd7]
    rw [pywt_waverec, List.foldl_cons]
    have ht7 : ∀ u ∈ t, u.length = 7 := fun u hu => hth u (by rw [hds]; simp [hu])
    have := pywt_waverec_loop8 db4_rec_lo db4_rec_hi hrlo hrhi t _ hfirst ht7
    rw [pywt_waverec] at this
    exact this

/-! ## Shape invariance (claim C1) -/

/-- `data.shape` of a 2D array, row by row (finer than the `(rows, cols)`
pair: it also determines the column count of every row). -/
def npShapeRows (d : List (List ℝ)) : List ℕ := d.map List.length

theorem npConvolveSame_length (a v : List ℝ) (ha : a ≠ []) (hv : v ≠ []) :
    (npConvolveSame a v).length = max a.length v.length := by
  have ha1 : 1 ≤ a.length := List.length_pos.mpr ha
  have hv1 : 1 ≤ v.length := List.length_pos.mpr hv
  rw [npConvolveSame, List.length_take, List.length_drop,
    npConvolveFull_length a v hv, if_neg (by omega)]
  omega

theorem agc_row_length (row : List ℝ) (w : ℕ) (out : List ℝ)
    (h : Gains.agc_row row w = some out) : out.length = row.length := by
  simp only [Gains.agc_row] at h
  split at h
  · cases h
    rename_i hlen
    rw [List.length_zipWith]
    simp only [List.length_map] at hlen
    rw [List.length_map, List.length_map, hlen]
    omega
  · cases h

theorem agc_gain_shape :
    ∀ (data : List (List ℝ)) (w : ℕ) (out : List (List ℝ)),
      Gains.agc_gain data w = some out → npShapeRows out = npShapeRows data
  | [], w, out, h => by
    simp only [Gains.agc_gain] at h
    cases h
    rfl
  | row :: rest, w, out, h => by
    simp only [Gains.agc_gain, bind, Option.bind] at h
    cases hr : Gains.agc_row row w with
    | none => rw [hr] at h; cases h
    | some r =>
      rw [hr] at h
      cases hrest : Gains.agc_gain rest w with
      | none => rw [hrest] at h; cases h
      | some rs =>
        rw [hrest] at h
        cases h
        simp only [npShapeRows, List.map_cons]
        rw [agc_row_length row w r hr]
        have htail := agc_gain_shape rest w rs hrest
        simp only [npShapeRows] at htail
        rw [htail]

theorem npShapeRows_mapIdx (f : ℕ → List ℝ → List ℝ)
    (h : ∀ i row, (f i row).length = row.length) :
    ∀ l : List (List ℝ), npShapeRows (l.mapIdx f) = npShapeRows l := by
  intro l
  induction l generalizing f with
  | nil => rfl
  | cons a t ih =>
    simp only [npShapeRows, List.mapIdx_cons, List.map_cons]
    rw [h 0 a]
    have htail := ih (fun i => f (i + 1)) (fun i row => h (i + 1) row)
    simp only [npShapeRows] at htail
    rw [htail]

/-- C1 (amended): every modelled GainStage, MuteStage, F-K filter and
deconvolution operation returns an array of exactly the input shape on
every input on which it succeeds — with the single exception of the
wavelet-denoising filter, whose pywt reconstruction rounds an odd trace
length up: on a 7-sample trace it returns 8 samples. -/
theorem C1_shape_invariance :
    (∀ (data : List (List ℝ)) (g : ℚ),
      npShapeRows (Gains.constant_gain data g) = npShapeRows data) ∧
    (∀ (data : List (List ℝ)) (tg : ℚ),
      (∀ row ∈ data, row.length = (data.getD 0 []).length) →
      npShapeRows (Gains.tvg_gain data tg) = npShapeRows data) ∧
    (∀ (data : List (List ℝ)) (w : ℕ) (out : List (List ℝ)),
      Gains.agc_gain data w = some out → npShapeRows out = npShapeRows data) ∧
    (∀ (data : List (List ℝ)) (mt si : ℚ),
      npShapeRows (Mute.top_mute data mt si) = npShapeRows data) ∧
    (∀ (data : List (List ℝ)) (mt si : ℚ),
      npShapeRows (Mute.bottom_mute data mt si) = npShapeRows data) ∧
    (∀ (data : List (List ℝ)) (offs : List ℚ) (mo : ℚ) (out : List (List ℝ)),
      Mute.offset_mute data offs mo = some out →
      npShapeRows out = npShapeRows data) ∧
    (∀ (data : List (List ℝ)) (it ft si : ℚ) (out : List (List ℝ)),
      Mute.time_variant_mute data it ft si = some out →
      npShapeRows out = npShapeRows data) ∧
    (∀ (data : List (List ℝ)) (sr : ℚ) (o : ℤ),
      (∀ row ∈ data, row.length = (data.getD 0 []).length) →
      npShapeRows (FIR_Filters.fk_filter data sr o) = npShapeRows data) ∧
    (∀ (trace : List ℝ) (w : ℕ) (out : List ℝ),
      Deconvolution.Spiking_Deconvolution trace w = some out →
      out.length = trace.length) ∧
    (∀ x : List ℝ, x.length = 7 →
      (FIR_Filters.wavelet_filter x 5).length = 8) := by
  refine ⟨?_, ?_, agc_gain_shape, ?_, ?_, ?_, ?_, ?_, ?_, wavelet_filter_length_7⟩
  · intro data g
    simp [npShapeRows, Gains.constant_gain, List.map_map, Function.comp]
  · intro data tg hrect
    rw [Gains.tvg_gain, npShapeRows, npShapeRows, List.map_map]
    apply List.map_congr_left
    intro row hrow
    simp only [Function.comp_apply, List.length_zipWith, List.length_ofFn]
    rw [hrect row hrow]
    omega
  · intro data mt si
    rw [Mute.top_mute, npShapeRows, npShapeRows, List.map_map]
    apply List.map_congr_left
    intro row hrow
    simp [setHeadZeros_length]
  · intro data mt si
    rw [Mute.bottom_mute, npShapeRows, npShapeRows, List.map_map]
    apply List.map_congr_left
    intro row hrow
    simp [setTailZeros_length]
  · intro data offs mo out h
    rw [Mute.offset_mute] at h
    split at h
    · cases h
      apply npShapeRows_mapIdx
      intro i row
      split
      · rw [List.length_replicate]
      · rfl
    · cases h
  · intro data it ft si out h
    simp only [Mute.time_variant_mute] at h
    split at h
    · cases h
      rw [npShapeRows, npShapeRows, List.map_map]
      apply List.map_congr_left
      intro row hrow
      simp
    · cases h
  · intro data sr o hrect
    rw [FIR_Filters.fk_filter, convolve2d_wrap_same, npShapeRows, npShapeRows,
      List.map_map]
    apply List.ext_getElem
    · simp
    · intro i h1 h2
      have hi : i < data.length := by simpa using h2
      simp only [List.getElem_map, List.getElem_range, Function.comp_apply,
        List.length_map, List.length_range]
      exact (hrect data[i] (data.getElem_mem hi)).symm
  · intro trace w out h
    rw [Deconvolution.Spiking_Deconvolution] at h
    by_cases hg : trace.length = 0 ∨ w = 0 ∨ trace.length < w
    · rw [if_pos hg] at h
      cases h
    · rw [if_neg hg] at h
      push_neg at hg
      obtain ⟨hg1, hg2, hg3⟩ := hg
      cases hs : np_linalg_solve
          (toeplitzOf (autocorrSlice trace w) w) (fun _ : Fin w => 0) with
      | none => rw [hs] at h; cases h
      | some coeffs =>
        rw [hs] at h
        simp only [Option.map_some'] at h
        cases h
        rw [npConvolveSame_length trace _ (by
            intro hnil
            rw [hnil] at hg1
            simp at hg1)
          (List.ne_nil_of_length_pos (by rw [List.length_ofFn]; omega))]
        rw [List.length_ofFn]
        omega

/-- C1 counterexample: on a 7-sample trace the wavelet-denoising filter
returns 8 samples, so its output shape differs from its input shape. -/
theorem C1_wavelet_filter_shape_counterexample :
    (FIR_Filters.wavelet_filter (List.replicate 7 (1:ℝ)) 5).length ≠
      (List.replicate 7 (1:ℝ)).length := by
  rw [wavelet_filter_length_7 _ (by simp), List.length_replicate]
  omega

/-- `np.linalg.solve` with the zero right-hand side and a nonsingular
matrix returns the zero vector. -/
theorem np_linalg_solve_zero_rhs {m : ℕ} (A : Matrix (Fin m) (Fin m) ℝ)
    (h : A.det ≠ 0) :
    np_linalg_solve A (fun _ : Fin m => 0) = some (fun _ : Fin m => 0) := by
  rw [np_linalg_solve, if_neg h]
  congr 1
  have hz : (fun _ : Fin m => (0 : ℝ)) = (0 : Fin m → ℝ) := rfl
  rw [hz, Matrix.mulVec_zero, smul_zero]

/-- Concrete success of `Spiking_Deconvolution` used by the C1 witness. -/
theorem spikingEval_c1 :
    Deconvolution.Spiking_Deconvolution [(1:ℝ), 0, 0] 2 =
      some (List.replicate 3 0) := by
  have hdet2 : (toeplitzOf (autocorrSlice [(1:ℝ), 0, 0] 2) 2).det ≠ 0 := by
    rw [autocorrSlice_eval_c9, Matrix.det_fin_two]
    norm_num [toeplitzOf]
  rw [Deconvolution.Spiking_Deconvolution, if_neg (by norm_num),
    np_linalg_solve_zero_rhs _ hdet2]
  simp only [Option.map_some']
  rw [List.ofFn_const,
    npConvolveSame_zero_kernel [(1:ℝ), 0, 0] 2 (by simp) (by omega) (by simp)]
  rfl

/-- Concrete success of `agc_gain` used by the C1 witness. -/
theorem agcEval_c1 : Gains.agc_gain [[(1:ℝ)]] 1 = some [[1]] := by
  have hlt : ¬ ((1 : ℝ) < 1/10000000000) := by norm_num
  have hrow : Gains.agc_row [(1:ℝ)] 1 = some [1] := by
    simp only [Gains.agc_row]
    norm_num [npConvolveSame, npConvolveFull, padAdd, abs_one, Real.sqrt_one, hlt]
  simp [Gains.agc_gain, hrow]

/-- Concrete success of `offset_mute` used by the C1 witness. -/
theorem offsetEval_c1 : Mute.offset_mute [[(1:ℝ)]] [] 0 = some [[(1:ℝ)]] := by
  rw [Mute.offset_mute, if_pos (by simp)]
  rfl

/-- Concrete success of `time_variant_mute` used by the C1 witness. -/
theorem tvEval_c1 : Mute.time_variant_mute [[(1:ℝ)]] 0 0 1 = some [[(1:ℝ)]] := by
  have h0 : pyInt ((0 : ℚ)/1) = 0 := by
    rw [show (0:ℚ)/1 = 0 by norm_num]
    rfl
  simp only [Mute.time_variant_mute, h0]
  rw [if_pos (by omega)]
  simp only [List.map_cons, List.map_nil, List.mapIdx_cons, List.mapIdx_nil]
  rw [if_neg (by omega)]

/-- C1 witness: concrete instances exercising every conjunct of the
amended shape theorem, hypotheses discharged at explicit inputs. -/
theorem C1_shape_invariance_witness :
    npShapeRows (Gains.constant_gain [[(1:ℝ), 2]] 3) = npShapeRows [[(1:ℝ), 2]] ∧
    npShapeRows (Gains.tvg_gain [[(1:ℝ), 2]] 1) = npShapeRows [[(1:ℝ), 2]] ∧
    npShapeRows [[(1:ℝ)]] = npShapeRows [[(1:ℝ)]] ∧
    npShapeRows (Mute.top_mute [[(1:ℝ), 2]] 1 1) = npShapeRows [[(1:ℝ), 2]] ∧
    npShapeRows (Mute.bottom_mute [[(1:ℝ), 2]] 1 1) = npShapeRows [[(1:ℝ), 2]] ∧
    npShapeRows (FIR_Filters.fk_filter [[(1:ℝ), 2]] 1 1) =
      npShapeRows [[(1:ℝ), 2]] ∧
    (List.replicate 3 (0:ℝ)).length = ([(1:ℝ), 0, 0]).length ∧
    (FIR_Filters.wavelet_filter (List.replicate 7 (1:ℝ)) 5).length = 8 := by
  refine ⟨C1_shape_invariance.1 [[(1:ℝ), 2]] 3,
    C1_shape_invariance.2.1 [[(1:ℝ), 2]] 1 ?_,
    C1_shape_invariance.2.2.1 [[(1:ℝ)]] 1 [[1]] agcEval_c1,
    C1_shape_invariance.2.2.2.1 [[(1:ℝ), 2]] 1 1,
    C1_shape_invariance.2.2.2.2.1 [[(1:ℝ), 2]] 1 1,
    C1_shape_invariance.2.2.2.2.2.2.2.1 [[(1:ℝ), 2]] 1 1 ?_,
    C1_shape_invariance.2.2.2.2.2.2.2.2.1 [(1:ℝ), 0, 0] 2
      (List.replicate 3 0) spikingEval_c1,
    C1_shape_invariance.2.2.2.2.2.2.2.2.2 (List.replicate 7 (1:ℝ)) (by simp)⟩
  · intro row hrow
    simp only [List.mem_singleton] at hrow
    subst hrow
    rfl
  · intro row hrow
    simp only [List.mem_singleton] at hrow
    subst hrow
    rfl

/-- C8 witness: a one-array store; the input array at index 0 is untouched
by `top_mute` and `annotate_traces`, whose results live at the fresh index
1. -/
theorem C8_fresh_output_input_unchanged_witness :
    getArr (Mute.top_mute_st [[[(1:ℝ), 2]]] 0 (1/10) (1/1000)).1 0 =
      getArr [[[(1:ℝ), 2]]] 0 ∧
    (Mute.top_mute_st [[[(1:ℝ), 2]]] 0 (1/10) (1/1000)).2 = 1 ∧
    getArr (TraceQC.annotate_traces_st [[[some (1:ℝ)]]] 0 [0]).1 0 =
      getArr [[[some (1:ℝ)]]] 0 ∧
    (TraceQC.annotate_traces_st [[[some (1:ℝ)]]] 0 [0]).2 = 1 := by
  have h1 := C8_fresh_output_input_unchanged.1 [[[(1:ℝ), 2]]] 0 (1/10) (1/1000)
    (by norm_num)
  have h2 := C8_fresh_output_input_unchanged.2.2.2.2.2.2.2 [[[some (1:ℝ)]]] 0 [0]
    (by norm_num)
  exact ⟨h1.1, h1.2, h2.1, h2.2⟩

end

end QGeoMarine
